import Mathlib

/-!
Verification of the sklang lexical analyser (`src/lexer/mod.rs`,
`src/lexer/error.rs`) against its natural-language specification.

The lexer proper (`Lexer`, `next_token`, `tokenize`, the `handle_*` helpers)
is translated from `src/lexer/mod.rs`.  The `Cursor` component is declared in
the source (`pub mod cursor`) but its file is not present in the repository
snapshot, so it is modelled from the specification (section 4.1).  Rust
standard-library functions used by the lexer (`char::is_numeric`,
`char::is_alphanumeric`, `char::is_whitespace`, `str::parse::<u64>`,
`str::parse::<f64>`) are modelled explicitly below.

Rust panics (`expect`) are modelled as an explicit `panicked` outcome.  All
recursion is fuelled; the fuel supplied at every call site is
`chars.length + 1`, which is proved sufficient (`tokenizeLoop_ne_fuelOut`),
so the fuelled functions agree with the unbounded Rust loops.
-/

set_option maxHeartbeats 1600000

/-- Abbreviation for the Lean string type, used inside inductives whose
constructor names would otherwise shadow it. -/
abbrev Str := String

/-- Models Rust `char::is_numeric` on the ASCII fragment: the ASCII digits
`'0'..='9'`.  (Unicode numerics beyond ASCII are not modelled; no claim
exercises them, and the lexer's own `'0'..='9'` range match in
`handle_number` is exactly this set.) -/
def isNumericChar (c : Char) : Bool :=
  decide (48 ≤ c.toNat) && decide (c.toNat ≤ 57)

/-- Models Rust `char::is_alphabetic` on the ASCII fragment: ASCII letters. -/
def isAlphaChar (c : Char) : Bool :=
  (decide (65 ≤ c.toNat) && decide (c.toNat ≤ 90)) ||
  (decide (97 ≤ c.toNat) && decide (c.toNat ≤ 122))

/-- Models Rust `char::is_alphanumeric` on the ASCII fragment:
ASCII letters and digits. -/
def isAlphanumericChar (c : Char) : Bool :=
  isAlphaChar c || isNumericChar c

/-- Models Rust `char::is_whitespace` exactly: the Unicode `White_Space`
property, a fixed finite set of 25 code points. -/
def isWhitespaceChar (c : Char) : Bool :=
  decide (c.toNat = 9) || decide (c.toNat = 10) || decide (c.toNat = 11) ||
  decide (c.toNat = 12) || decide (c.toNat = 13) || decide (c.toNat = 32) ||
  decide (c.toNat = 133) || decide (c.toNat = 160) ||
  decide (c.toNat = 5760) ||
  (decide (8192 ≤ c.toNat) && decide (c.toNat ≤ 8202)) ||
  decide (c.toNat = 8232) || decide (c.toNat = 8233) ||
  decide (c.toNat = 8239) || decide (c.toNat = 8287) ||
  decide (c.toNat = 12288)

/-- Accumulates the numeric value of a list of ASCII digits, as Rust's
`u64::from_str` does digit by digit (the overflow check is applied to the
final value below, which accepts/rejects the same strings). -/
def digitsToNat (l : List Char) : Nat :=
  l.foldl (fun acc c => acc * 10 + (c.toNat - 48)) 0

/-- Models Rust `str::parse::<u64>`: an optional leading `'+'`, then one or
more ASCII digits, with the value required to fit in 64 bits.  Returns
`none` where Rust returns `Err` (which `handle_number` turns into a panic
via `expect`). -/
def parseU64? (s : String) : Option Nat :=
  let ds := match s.data with
    | c :: rest => if c = '+' then rest else c :: rest
    | [] => []
  if ds ≠ [] ∧ ds.all isNumericChar then
    if digitsToNat ds < 18446744073709551616 then some (digitsToNat ds)
    else none
  else none

/-- Helper for `validF64`: a Rust float mantissa, `digits`, `digits.digits`,
`digits.` or `.digits` (at least one digit overall, at most one dot). -/
def isMantissa (l : List Char) : Bool :=
  let intPart := l.takeWhile isNumericChar
  let rest := l.dropWhile isNumericChar
  match rest with
  | [] => !intPart.isEmpty
  | '.' :: frac => (!intPart.isEmpty || !frac.isEmpty) && frac.all isNumericChar
  | _ => false

/-- Helper for `validF64`: an optional exponent part, `e`/`E` followed by an
optionally signed nonempty digit string; the empty list means no exponent. -/
def isExpPart (l : List Char) : Bool :=
  match l with
  | [] => true
  | 'e' :: r =>
    (match r with
     | '+' :: d => !d.isEmpty && d.all isNumericChar
     | '-' :: d => !d.isEmpty && d.all isNumericChar
     | d => !d.isEmpty && d.all isNumericChar)
  | 'E' :: r =>
    (match r with
     | '+' :: d => !d.isEmpty && d.all isNumericChar
     | '-' :: d => !d.isEmpty && d.all isNumericChar
     | d => !d.isEmpty && d.all isNumericChar)
  | _ => false

/-- Models the accepted set of Rust `str::parse::<f64>`: optional sign, then
`inf`/`infinity`/`nan` (case-insensitive) or a mantissa with an optional
exponent.  In particular a second `'.'` in the mantissa is rejected. -/
def validF64 (s : String) : Bool :=
  let l := match s.data with
    | c :: rest => if decide (c = '+') || decide (c = '-') then rest else s.data
    | [] => []
  let low := l.map Char.toLower
  if low = ['i', 'n', 'f'] ∨ low = ['i', 'n', 'f', 'i', 'n', 'i', 't', 'y'] ∨
     low = ['n', 'a', 'n'] then true
  else
    let mant := l.takeWhile (fun c => decide (c ≠ 'e') && decide (c ≠ 'E'))
    let rest := l.dropWhile (fun c => decide (c ≠ 'e') && decide (c ≠ 'E'))
    isMantissa mant && isExpPart rest

/-- Models Rust `str::parse::<f64>` at the precision the lexer needs: the
accepted lexeme is kept as its source text (its numeric `f64` value is never
inspected by the lexer or any claim), and `none` is returned where Rust
returns `Err` (which `handle_number` turns into a panic via `expect`). -/
def parseF64? (s : String) : Option String :=
  if validF64 s then some s else none

/-- Character lookup in a list by position, `some` when in range.  Used to
model the Cursor's position-indexed access to the source text. -/
def charAt? : List Char → Nat → Option Char
  | [], _ => none
  | c :: _, 0 => some c
  | _ :: rest, n + 1 => charAt? rest n

/-- Modelled from the spec: the `Cursor` component (`src/lexer/cursor.rs` is
missing from the repository snapshot; section 4.1 of the spec describes it).
It wraps the immutable source text as a character sequence and a current
read position. -/
structure Cursor where
  chars : List Char
  pos : Nat
deriving Repr, DecidableEq

/-- Modelled from the spec: `Cursor::next` consumes and returns the next
character, or `None` at end of input; on success it advances the internal
position by one character. -/
def Cursor.next (c : Cursor) : Option Char × Cursor :=
  match charAt? c.chars c.pos with
  | some ch => (some ch, { c with pos := c.pos + 1 })
  | none => (none, c)

/-- Modelled from the spec: `Cursor::peek_nth(n)` returns the character `n`
positions ahead of the current (unconsumed) position without consuming;
`n = 0` is the next character to be consumed. -/
def Cursor.peekNth (c : Cursor) (n : Nat) : Option Char :=
  charAt? c.chars (c.pos + n)

/-- Modelled from the spec: `Cursor::substring(start, end)` returns the text
between two previously observed positions (inclusive-exclusive character
offsets into the source buffer), or `None` when the range is invalid
relative to the buffer. -/
def Cursor.substring (c : Cursor) (s e : Nat) : Option String :=
  if s ≤ e ∧ e ≤ c.chars.length then some ⟨(c.chars.drop s).take (e - s)⟩
  else none

/-- The built-in primitive type keywords (`PrimitiveType` in
`src/lexer/mod.rs`). -/
inductive PrimitiveType where
  | Int
  | UInt
  | Float
  | Bool
  | Char
deriving Repr, DecidableEq

/-- The token kinds (`TokenType` in `src/lexer/mod.rs`).  `Decimal` carries
its source lexeme rather than an `f64` value: the numeric value is never
inspected by the lexer nor by any claim, and `parseF64?` models which
lexemes parse. -/
inductive TokenType where
  | Add
  | AddEqual
  | Minus
  | MinusEqual
  | Modulo
  | ModuloEqual
  | Slash
  | SlashEqual
  | Star
  | StarEqual
  | Bang
  | BangEqual
  | Equal
  | EqualEqual
  | Greater
  | GreaterEqual
  | Less
  | LessEqual
  | Ampersand
  | Arrow
  | Bar
  | Colon
  | Comma
  | Dot
  | LeftBrace
  | LeftBracket
  | LeftParen
  | LogicalAnd
  | LogicalOr
  | RightBrace
  | RightBracket
  | RightParen
  | Semicolon
  | Character (c : Char)
  | Decimal (lexeme : Str)
  | Identifier (s : Str)
  | Integer (n : Nat)
  | String (s : Str)
  | Primitive (p : PrimitiveType)
  | Break
  | Continue
  | Default
  | Else
  | Enum
  | False
  | Fn
  | For
  | If
  | Match
  | Return
  | Struct
  | Switch
  | True
  | Var
  | While
  | Comment
  | Eof
deriving Repr

/-- A scanned token (`Token` in `src/lexer/mod.rs`): kind plus the line and
column recorded when the token was produced. -/
structure Token where
  ttype : TokenType
  line : Nat
  col : Nat
deriving Repr

/-- Decidability of the one `TokenType` equality test the code performs
(`token.ttype == TokenType::Eof` in `tokenize`), written by hand so that
no quadratic derived match is needed. -/
instance (a : TokenType) : Decidable (a = TokenType.Eof) :=
  match a with
  | .Eof => isTrue rfl
  | .Add => isFalse (fun h => TokenType.noConfusion h)
  | .AddEqual => isFalse (fun h => TokenType.noConfusion h)
  | .Minus => isFalse (fun h => TokenType.noConfusion h)
  | .MinusEqual => isFalse (fun h => TokenType.noConfusion h)
  | .Modulo => isFalse (fun h => TokenType.noConfusion h)
  | .ModuloEqual => isFalse (fun h => TokenType.noConfusion h)
  | .Slash => isFalse (fun h => TokenType.noConfusion h)
  | .SlashEqual => isFalse (fun h => TokenType.noConfusion h)
  | .Star => isFalse (fun h => TokenType.noConfusion h)
  | .StarEqual => isFalse (fun h => TokenType.noConfusion h)
  | .Bang => isFalse (fun h => TokenType.noConfusion h)
  | .BangEqual => isFalse (fun h => TokenType.noConfusion h)
  | .Equal => isFalse (fun h => TokenType.noConfusion h)
  | .EqualEqual => isFalse (fun h => TokenType.noConfusion h)
  | .Greater => isFalse (fun h => TokenType.noConfusion h)
  | .GreaterEqual => isFalse (fun h => TokenType.noConfusion h)
  | .Less => isFalse (fun h => TokenType.noConfusion h)
  | .LessEqual => isFalse (fun h => TokenType.noConfusion h)
  | .Ampersand => isFalse (fun h => TokenType.noConfusion h)
  | .Arrow => isFalse (fun h => TokenType.noConfusion h)
  | .Bar => isFalse (fun h => TokenType.noConfusion h)
  | .Colon => isFalse (fun h => TokenType.noConfusion h)
  | .Comma => isFalse (fun h => TokenType.noConfusion h)
  | .Dot => isFalse (fun h => TokenType.noConfusion h)
  | .LeftBrace => isFalse (fun h => TokenType.noConfusion h)
  | .LeftBracket => isFalse (fun h => TokenType.noConfusion h)
  | .LeftParen => isFalse (fun h => TokenType.noConfusion h)
  | .LogicalAnd => isFalse (fun h => TokenType.noConfusion h)
  | .LogicalOr => isFalse (fun h => TokenType.noConfusion h)
  | .RightBrace => isFalse (fun h => TokenType.noConfusion h)
  | .RightBracket => isFalse (fun h => TokenType.noConfusion h)
  | .RightParen => isFalse (fun h => TokenType.noConfusion h)
  | .Semicolon => isFalse (fun h => TokenType.noConfusion h)
  | .Break => isFalse (fun h => TokenType.noConfusion h)
  | .Continue => isFalse (fun h => TokenType.noConfusion h)
  | .Default => isFalse (fun h => TokenType.noConfusion h)
  | .Else => isFalse (fun h => TokenType.noConfusion h)
  | .Enum => isFalse (fun h => TokenType.noConfusion h)
  | .False => isFalse (fun h => TokenType.noConfusion h)
  | .Fn => isFalse (fun h => TokenType.noConfusion h)
  | .For => isFalse (fun h => TokenType.noConfusion h)
  | .If => isFalse (fun h => TokenType.noConfusion h)
  | .Match => isFalse (fun h => TokenType.noConfusion h)
  | .Return => isFalse (fun h => TokenType.noConfusion h)
  | .Struct => isFalse (fun h => TokenType.noConfusion h)
  | .Switch => isFalse (fun h => TokenType.noConfusion h)
  | .True => isFalse (fun h => TokenType.noConfusion h)
  | .Var => isFalse (fun h => TokenType.noConfusion h)
  | .While => isFalse (fun h => TokenType.noConfusion h)
  | .Comment => isFalse (fun h => TokenType.noConfusion h)
  | .Character _ => isFalse (fun h => TokenType.noConfusion h)
  | .Decimal _ => isFalse (fun h => TokenType.noConfusion h)
  | .Identifier _ => isFalse (fun h => TokenType.noConfusion h)
  | .Integer _ => isFalse (fun h => TokenType.noConfusion h)
  | .String _ => isFalse (fun h => TokenType.noConfusion h)
  | .Primitive _ => isFalse (fun h => TokenType.noConfusion h)

/-- The lexer error type (`LexerError` in `src/lexer/error.rs`). -/
inductive LexerError where
  | UnexpectedEof (line col : Nat) (expected : Str)
  | UnexpectedCharacter (line col : Nat) (expected : Str) (got : Char)
  | UnknownCharacter (line col : Nat) (character : Char)
deriving Repr, DecidableEq

/-- Outcome of one scanning step: a value, a propagated `LexerError` (Rust
`Err`), a Rust panic (`expect` failure) carrying the panic message, or fuel
exhaustion of the fuelled model (proved unreachable at the supplied fuel). -/
inductive Scan (α : Type) where
  | ok (a : α)
  | err (e : LexerError)
  | panicked (msg : Str)
  | fuelOut
deriving Repr, DecidableEq

/-- The keyword table (`KEYWORDS` in `src/lexer/mod.rs`): the fixed
association of keyword lexemes (including the primitive type names) to
token types. -/
def keywords : List (Str × TokenType) :=
  [("break", .Break), ("continue", .Continue), ("default", .Default),
   ("else", .Else), ("enum", .Enum), ("false", .False), ("fn", .Fn),
   ("for", .For), ("if", .If), ("match", .Match), ("return", .Return),
   ("struct", .Struct), ("switch", .Switch), ("true", .True), ("var", .Var),
   ("while", .While), ("int", .Primitive .Int), ("uint", .Primitive .UInt),
   ("float", .Primitive .Float), ("bool", .Primitive .Bool),
   ("char", .Primitive .Char)]

/-- `KEYWORDS.get(lexeme)`: lookup in the keyword table (the `HashMap` keys
are distinct literals, so lookup is a linear search over the
associations). -/
def keywordLookup (s : String) : Option TokenType :=
  (keywords.find? (fun p => p.1 == s)).map (fun p => p.2)

/-- The lexer state (`Lexer` in `src/lexer/mod.rs`): the cursor over the
source plus the lexeme start boundary, current offset, line and column. -/
structure Lexer where
  source : Cursor
  start : Nat
  current : Nat
  line : Nat
  col : Nat
deriving Repr, DecidableEq

/-- `Lexer::new`: cursor over the source, `start = current = 0`, `line = 1`,
`col = 0`. -/
def Lexer.new (s : String) : Lexer :=
  { source := { chars := s.data, pos := 0 }, start := 0, current := 0,
    line := 1, col := 0 }

/-- Fuel supplied at every call to a fuelled loop: one more than the length
of the source, which bounds every loop in the lexer (each iteration consumes
at least one character). -/
def Lexer.fuelBound (l : Lexer) : Nat :=
  l.source.chars.length + 1

/-- `Lexer::advance`: pulls one character from the cursor; on a newline it
resets the column to 1, increments the line and zeroes `current` and
`start`, otherwise it increments the column and `current`. -/
def Lexer.advance (l : Lexer) : Option Char × Lexer :=
  match l.source.next with
  | (some ch, src) =>
    if ch = '\n' then
      (some ch, { l with source := src, col := 1, line := l.line + 1,
                         current := 0, start := 0 })
    else
      (some ch, { l with source := src, col := l.col + 1,
                         current := l.current + 1 })
  | (none, src) => (none, { l with source := src })

/-- The shared epilogue of `Lexer::next_token`: reset the lexeme start
boundary to `current` and return the token stamped with the current line
and column. -/
def Lexer.finishToken (l : Lexer) (ty : TokenType) : Scan Token × Lexer :=
  (.ok { ttype := ty, line := l.line, col := l.col },
   { l with start := l.current })

/-- The scanning loop of `Lexer::handle_comment`: while `peek_nth(1)` is a
character other than a newline, `advance`. -/
def commentLoop : Nat → Lexer → Scan Unit × Lexer
  | 0, l => (.fuelOut, l)
  | fuel + 1, l =>
    match l.source.peekNth 1 with
    | none => (.ok (), l)
    | some ch =>
      if ch = '\n' then (.ok (), l)
      else commentLoop fuel (l.advance).2

/-- `Lexer::handle_comment`: consume the second slash directly from the
cursor (panicking if absent), then run the comment loop. -/
def Lexer.handleComment (l : Lexer) : Scan Unit × Lexer :=
  match l.source.next with
  | (some _, src) => commentLoop l.fuelBound { l with source := src }
  | (none, src) =>
    (.panicked "second slash in comment start", { l with source := src })

/-- `Lexer::consume`: peek at `peek_nth(1)`; `UnexpectedEof` if absent,
`UnexpectedCharacter` if it differs from the target, otherwise `advance`
(whose `expect` is modelled as a panic when it would fail). -/
def Lexer.consume (l : Lexer) (target : Char) : Scan Char × Lexer :=
  match l.source.peekNth 1 with
  | none => (.err (.UnexpectedEof l.line l.col (String.mk [target])), l)
  | some next =>
    if next ≠ target then
      (.err (.UnexpectedCharacter l.line l.col (String.mk [target]) next), l)
    else
      match l.advance with
      | (some c, l2) => (.ok c, l2)
      | (none, l2) => (.panicked "next char should exist", l2)

/-- `Lexer::handle_char`: advance to take the literal's character
(`UnexpectedEof` if the input is exhausted), then `consume` a closing
quote. -/
def Lexer.handleChar (l : Lexer) : Scan TokenType × Lexer :=
  match l.advance with
  | (none, l2) => (.err (.UnexpectedEof l2.line l2.col "a character"), l2)
  | (some ch, l2) =>
    match l2.consume '\x27' with
    | (.ok _, l3) => (.ok (.Character ch), l3)
    | (.err e, l3) => (.err e, l3)
    | (.panicked m, l3) => (.panicked m, l3)
    | (.fuelOut, l3) => (.fuelOut, l3)

/-- The scanning loop of `Lexer::handle_string`: while `peek_nth(1)` is a
character, error on a newline, stop on a quote, otherwise consume one
character directly from the cursor. -/
def stringLoop : Nat → Lexer → Scan Unit × Lexer
  | 0, l => (.fuelOut, l)
  | fuel + 1, l =>
    match l.source.peekNth 1 with
    | none => (.ok (), l)
    | some ch =>
      if ch = '\n' then
        (.err (.UnexpectedCharacter l.line l.col "a valid string" ch), l)
      else if ch = '"' then (.ok (), l)
      else stringLoop fuel { l with source := (l.source.next).2 }

/-- `Lexer::handle_string`: run the string loop, then take
`substring(start, current)` as the token text (its `expect` modelled as a
panic). -/
def Lexer.handleString (l : Lexer) : Scan TokenType × Lexer :=
  match stringLoop l.fuelBound l with
  | (.ok _, l2) =>
    match l2.source.substring l2.start l2.current with
    | some s => (.ok (.String s), l2)
    | none => (.panicked "start and current should be valid", l2)
  | (.err e, l2) => (.err e, l2)
  | (.panicked m, l2) => (.panicked m, l2)
  | (.fuelOut, l2) => (.fuelOut, l2)

/-- `Lexer::get_lexeme`: `substring(start, current)`, with its `expect`
modelled as a panic. -/
def Lexer.getLexeme (l : Lexer) : Scan String :=
  match l.source.substring l.start l.current with
  | some s => .ok s
  | none => .panicked "start and current should always be valid"

/-- The scanning loop of `Lexer::handle_number`: while `peek_nth(0)` is a
digit, advance; on a `'.'` mark the literal as a float and advance;
otherwise stop.  Returns the float flag. -/
def numberLoop : Nat → Lexer → Bool → Scan Bool × Lexer
  | 0, l, _ => (.fuelOut, l)
  | fuel + 1, l, isFloat =>
    match l.source.peekNth 0 with
    | none => (.ok isFloat, l)
    | some ch =>
      if isNumericChar ch then numberLoop fuel (l.advance).2 isFloat
      else if ch = '.' then numberLoop fuel (l.advance).2 true
      else (.ok isFloat, l)

/-- `Lexer::handle_number`: run the number loop, take the lexeme, and parse
it as `f64` or `u64`; a parse failure hits the
`expect("parsing should never fail")` and is a panic. -/
def Lexer.handleNumber (l : Lexer) : Scan TokenType × Lexer :=
  match numberLoop l.fuelBound l false with
  | (.ok isFloat, l2) =>
    match l2.getLexeme with
    | .ok lexeme =>
      if isFloat then
        match parseF64? lexeme with
        | some v => (.ok (.Decimal v), l2)
        | none => (.panicked "parsing should never fail", l2)
      else
        match parseU64? lexeme with
        | some v => (.ok (.Integer v), l2)
        | none => (.panicked "parsing should never fail", l2)
    | .err e => (.err e, l2)
    | .panicked m => (.panicked m, l2)
    | .fuelOut => (.fuelOut, l2)
  | (.err e, l2) => (.err e, l2)
  | (.panicked m, l2) => (.panicked m, l2)
  | (.fuelOut, l2) => (.fuelOut, l2)

/-- The scanning loop of `Lexer::handle_identifier`: while `peek_nth(0)` is
alphanumeric or an underscore, advance. -/
def identLoop : Nat → Lexer → Scan Unit × Lexer
  | 0, l => (.fuelOut, l)
  | fuel + 1, l =>
    match l.source.peekNth 0 with
    | none => (.ok (), l)
    | some ch =>
      if isAlphanumericChar ch || decide (ch = '_') then
        identLoop fuel (l.advance).2
      else (.ok (), l)

/-- `Lexer::handle_identifier`: run the identifier loop, take the lexeme,
and look it up in the keyword table, defaulting to an `Identifier` token
carrying the lexeme. -/
def Lexer.handleIdentifier (l : Lexer) : Scan TokenType × Lexer :=
  match identLoop l.fuelBound l with
  | (.ok _, l2) =>
    match l2.getLexeme with
    | .ok lexeme =>
      (.ok ((keywordLookup lexeme).getD (.Identifier lexeme)), l2)
    | .err e => (.err e, l2)
    | .panicked m => (.panicked m, l2)
    | .fuelOut => (.fuelOut, l2)
  | (.err e, l2) => (.err e, l2)
  | (.panicked m, l2) => (.panicked m, l2)
  | (.fuelOut, l2) => (.fuelOut, l2)

/-- `Lexer::next_token`: advance one character (end of input yields the
`Eof` marker token), then dispatch on it exactly as the Rust `match` does:
two-character operator disambiguation by `peek_nth(0)`, structural
punctuation, literal handlers, newline and whitespace restarts, and
`UnknownCharacter` otherwise. -/
def Lexer.nextToken : Nat → Lexer → Scan Token × Lexer
  | 0, l => (.fuelOut, l)
  | fuel + 1, l =>
    match l.advance with
    | (none, l1) => (.ok { ttype := .Eof, line := l1.line, col := l1.col }, l1)
    | (some ch, l1) =>
      if ch = '+' then
        match l1.source.peekNth 0 with
        | some c =>
          if c = '=' then ((l1.advance).2).finishToken .AddEqual
          else l1.finishToken .Add
        | none => l1.finishToken .Add
      else if ch = '-' then
        match l1.source.peekNth 0 with
        | some c =>
          if c = '=' then ((l1.advance).2).finishToken .LessEqual
          else if c = '>' then ((l1.advance).2).finishToken .Arrow
          else l1.finishToken .Less
        | none => l1.finishToken .Less
      else if ch = '*' then
        match l1.source.peekNth 0 with
        | some c =>
          if c = '=' then ((l1.advance).2).finishToken .StarEqual
          else l1.finishToken .Star
        | none => l1.finishToken .Star
      else if ch = '/' then
        match l1.source.peekNth 0 with
        | some c =>
          if c = '=' then ((l1.advance).2).finishToken .SlashEqual
          else if c = '/' then
            match l1.handleComment with
            | (.ok _, l2) => l2.finishToken .Comment
            | (.err e, l2) => (.err e, l2)
            | (.panicked m, l2) => (.panicked m, l2)
            | (.fuelOut, l2) => (.fuelOut, l2)
          else l1.finishToken .Slash
        | none => l1.finishToken .Slash
      else if ch = '%' then
        match l1.source.peekNth 0 with
        | some c =>
          if c = '=' then ((l1.advance).2).finishToken .ModuloEqual
          else l1.finishToken .Modulo
        | none => l1.finishToken .Modulo
      else if ch = '!' then
        match l1.source.peekNth 0 with
        | some c =>
          if c = '=' then ((l1.advance).2).finishToken .BangEqual
          else l1.finishToken .Bang
        | none => l1.finishToken .Bang
      else if ch = '=' then
        match l1.source.peekNth 0 with
        | some c =>
          if c = '=' then ((l1.advance).2).finishToken .EqualEqual
          else l1.finishToken .Equal
        | none => l1.finishToken .Equal
      else if ch = '>' then
        match l1.source.peekNth 0 with
        | some c =>
          if c = '=' then ((l1.advance).2).finishToken .GreaterEqual
          else l1.finishToken .Greater
        | none => l1.finishToken .Greater
      else if ch = '<' then
        match l1.source.peekNth 0 with
        | some c =>
          if c = '=' then ((l1.advance).2).finishToken .LessEqual
          else l1.finishToken .Less
        | none => l1.finishToken .Less
      else if ch = '&' then
        match l1.source.peekNth 0 with
        | some c =>
          if c = '&' then ((l1.advance).2).finishToken .LogicalAnd
          else l1.finishToken .Ampersand
        | none => l1.finishToken .Ampersand
      else if ch = '|' then
        match l1.source.peekNth 0 with
        | some c =>
          if c = '|' then ((l1.advance).2).finishToken .LogicalOr
          else l1.finishToken .Bar
        | none => l1.finishToken .Bar
      else if ch = ':' then l1.finishToken .Colon
      else if ch = ',' then l1.finishToken .Comma
      else if ch = '.' then l1.finishToken .Dot
      else if ch = '{' then l1.finishToken .LeftBrace
      else if ch = '[' then l1.finishToken .LeftBracket
      else if ch = '(' then l1.finishToken .LeftParen
      else if ch = '}' then l1.finishToken .RightBrace
      else if ch = ']' then l1.finishToken .RightBracket
      else if ch = ')' then l1.finishToken .RightParen
      else if ch = ';' then l1.finishToken .Semicolon
      else if ch = '\x27' then
        match l1.handleChar with
        | (.ok ty, l2) => l2.finishToken ty
        | (.err e, l2) => (.err e, l2)
        | (.panicked m, l2) => (.panicked m, l2)
        | (.fuelOut, l2) => (.fuelOut, l2)
      else if ch = '"' then
        match l1.handleString with
        | (.ok ty, l2) => l2.finishToken ty
        | (.err e, l2) => (.err e, l2)
        | (.panicked m, l2) => (.panicked m, l2)
        | (.fuelOut, l2) => (.fuelOut, l2)
      else if isNumericChar ch then
        match l1.handleNumber with
        | (.ok ty, l2) => l2.finishToken ty
        | (.err e, l2) => (.err e, l2)
        | (.panicked m, l2) => (.panicked m, l2)
        | (.fuelOut, l2) => (.fuelOut, l2)
      else if isAlphanumericChar ch || decide (ch = '_') then
        match l1.handleIdentifier with
        | (.ok ty, l2) => l2.finishToken ty
        | (.err e, l2) => (.err e, l2)
        | (.panicked m, l2) => (.panicked m, l2)
        | (.fuelOut, l2) => (.fuelOut, l2)
      else if ch = '\n' then
        Lexer.nextToken fuel { l1 with line := l1.line + 1, col := 1 }
      else if isWhitespaceChar ch then
        Lexer.nextToken fuel { l1 with start := l1.current }
      else
        (.err (.UnknownCharacter l1.line l1.col ch), l1)

/-- Result of `Lexer::tokenize`: the collected sequence (Rust
`Vec<Result<Token, LexerError>>`), or a propagated panic, or fuel
exhaustion of the fuelled model (proved unreachable at the supplied
fuel). -/
inductive TokenizeResult where
  | results (rs : List (Except LexerError Token))
  | panicked (msg : Str)
  | fuelOut
deriving Repr

/-- The loop of `Lexer::tokenize`: request tokens until the `Eof` marker is
produced, pushing every other token and every error. -/
def tokenizeLoop : Nat → Lexer → TokenizeResult
  | 0, _ => .fuelOut
  | fuel + 1, l =>
    match l.nextToken l.fuelBound with
    | (.ok t, l2) =>
      if t.ttype = .Eof then .results []
      else
        match tokenizeLoop fuel l2 with
        | .results rs => .results (.ok t :: rs)
        | other => other
    | (.err e, l2) =>
      match tokenizeLoop fuel l2 with
      | .results rs => .results (.error e :: rs)
      | other => other
    | (.panicked m, _) => .panicked m
    | (.fuelOut, _) => .fuelOut

/-- `Lexer::tokenize` on a fresh lexer over the given source string. -/
def tokenize (s : String) : TokenizeResult :=
  tokenizeLoop (Lexer.new s).fuelBound (Lexer.new s)

/-- The eight single-character operators of `next_token`'s dispatch table
that have a documented `=`-extended two-character form (`+ * / % ! = > <`;
`-` is excluded because its dispatch row maps into the `<` family, and
`& |` because their extensions are `&& ||`, not `=`). -/
def opsList : List Char :=
  ['+', '*', '/', '%', '!', '=', '>', '<']

/-- The token emitted by `next_token` for a bare occurrence of each operator
in `opsList`, read off the dispatch table in `src/lexer/mod.rs`. -/
def singleOpTok (c : Char) : TokenType :=
  if c = '+' then .Add
  else if c = '*' then .Star
  else if c = '/' then .Slash
  else if c = '%' then .Modulo
  else if c = '!' then .Bang
  else if c = '=' then .Equal
  else if c = '>' then .Greater
  else .Less

/-- The compound token emitted by `next_token` for `<op>=` for each operator
in `opsList`, read off the dispatch table in `src/lexer/mod.rs`. -/
def compoundOpTok (c : Char) : TokenType :=
  if c = '+' then .AddEqual
  else if c = '*' then .StarEqual
  else if c = '/' then .SlashEqual
  else if c = '%' then .ModuloEqual
  else if c = '!' then .BangEqual
  else if c = '=' then .EqualEqual
  else if c = '>' then .GreaterEqual
  else .LessEqual

/-- The token, if any, that `next_token` produces when it dispatches on
character `c` as the last character of the input (mirroring the dispatch
order of `src/lexer/mod.rs`): `none` for characters that yield an error or
only restart scanning. -/
def singleTok (c : Char) : Option TokenType :=
  if c = '+' then some .Add
  else if c = '-' then some .Less
  else if c = '*' then some .Star
  else if c = '/' then some .Slash
  else if c = '%' then some .Modulo
  else if c = '!' then some .Bang
  else if c = '=' then some .Equal
  else if c = '>' then some .Greater
  else if c = '<' then some .Less
  else if c = '&' then some .Ampersand
  else if c = '|' then some .Bar
  else if c = ':' then some .Colon
  else if c = ',' then some .Comma
  else if c = '.' then some .Dot
  else if c = '{' then some .LeftBrace
  else if c = '[' then some .LeftBracket
  else if c = '(' then some .LeftParen
  else if c = '}' then some .RightBrace
  else if c = ']' then some .RightBracket
  else if c = ')' then some .RightParen
  else if c = ';' then some .Semicolon
  else if c = '\x27' then none
  else if c = '"' then some (.String (String.mk [c]))
  else if isNumericChar c then some (.Integer (c.toNat - 48))
  else if isAlphanumericChar c || decide (c = '_') then
    some (.Identifier (String.mk [c]))
  else none

/-- The lexer state reached just before scanning the final character `c` of
an input `pre ++ [c]` whose earlier tokens all ended exactly at the boundary
`pre.length`, with the column counter at `c0` and everything on line 1. -/
def LState (pre : List Char) (c : Char) (c0 : Nat) : Lexer :=
  { source := { chars := pre ++ [c], pos := pre.length },
    start := pre.length, current := pre.length, line := 1, col := c0 }

/-! ### Basic facts about `charAt?` and the cursor -/

theorem charAt?_some_lt {l : List Char} {n : Nat} {c : Char}
    (h : charAt? l n = some c) : n < l.length := by
  induction l generalizing n with
  | nil => simp [charAt?] at h
  | cons x xs ih =>
    cases n with
    | zero => simp
    | succ m =>
      simp only [charAt?] at h
      simpa using Nat.succ_lt_succ (ih h)

theorem charAt?_isSome_of_lt {l : List Char} {n : Nat}
    (h : n < l.length) : ∃ c, charAt? l n = some c := by
  induction l generalizing n with
  | nil => simp at h
  | cons x xs ih =>
    cases n with
    | zero => exact ⟨x, rfl⟩
    | succ m =>
      simp only [List.length_cons] at h
      exact ih (Nat.lt_of_succ_lt_succ h)

theorem charAt?_none_of_le {l : List Char} {n : Nat}
    (h : l.length ≤ n) : charAt? l n = none := by
  induction l generalizing n with
  | nil => simp [charAt?]
  | cons x xs ih =>
    cases n with
    | zero => simp at h
    | succ m =>
      simp only [List.length_cons] at h
      exact ih (Nat.le_of_succ_le_succ h)

theorem charAt?_mem {l : List Char} {n : Nat} {c : Char}
    (h : charAt? l n = some c) : c ∈ l := by
  induction l generalizing n with
  | nil => simp [charAt?] at h
  | cons x xs ih =>
    cases n with
    | zero => simp [charAt?] at h; simp [h]
    | succ m =>
      simp only [charAt?] at h
      exact List.mem_cons_of_mem _ (ih h)

theorem charAt?_snoc_self (pre : List Char) (c : Char) :
    charAt? (pre ++ [c]) pre.length = some c := by
  induction pre with
  | nil => rfl
  | cons x xs ih => simpa [charAt?] using ih

theorem charAt?_snoc_none (pre : List Char) (c : Char) {n : Nat}
    (h : pre.length + 1 ≤ n) : charAt? (pre ++ [c]) n = none := by
  apply charAt?_none_of_le
  simpa using h

theorem Cursor.next_chars (c : Cursor) : (c.next).2.chars = c.chars := by
  unfold Cursor.next
  cases h : charAt? c.chars c.pos <;> rfl

theorem Cursor.next_pos_le (c : Cursor) : c.pos ≤ (c.next).2.pos := by
  unfold Cursor.next
  cases h : charAt? c.chars c.pos <;> simp

theorem Cursor.next_some {c : Cursor} {ch : Char} {c2 : Cursor}
    (h : c.next = (some ch, c2)) :
    c2.pos = c.pos + 1 ∧ c2.chars = c.chars ∧ c.pos < c.chars.length ∧
    charAt? c.chars c.pos = some ch := by
  unfold Cursor.next at h
  cases hc : charAt? c.chars c.pos with
  | none => rw [hc] at h; simp at h
  | some d =>
    rw [hc] at h
    injection h with h1 h2
    injection h1 with h1
    subst h1
    subst h2
    exact ⟨rfl, rfl, charAt?_some_lt hc, rfl⟩

theorem Cursor.next_none {c : Cursor} {c2 : Cursor}
    (h : c.next = (none, c2)) :
    c2 = c ∧ charAt? c.chars c.pos = none := by
  unfold Cursor.next at h
  cases hc : charAt? c.chars c.pos with
  | none => rw [hc] at h; simp only [Prod.mk.injEq] at h; exact ⟨h.2.symm, rfl⟩
  | some d => rw [hc] at h; simp at h

/-! ### Facts about `Lexer.advance` -/

theorem advance_chars (l : Lexer) :
    ((l.advance).2).source.chars = l.source.chars := by
  unfold Lexer.advance
  cases h : l.source.next with
  | mk o src =>
    have hch : src.chars = l.source.chars := by
      have := Cursor.next_chars l.source
      rw [h] at this; exact this
    cases o with
    | none => simpa using hch
    | some ch =>
      by_cases hnl : ch = '\n' <;> simp [hnl, hch]

theorem advance_pos_le (l : Lexer) :
    l.source.pos ≤ ((l.advance).2).source.pos := by
  unfold Lexer.advance
  cases h : l.source.next with
  | mk o src =>
    have hp : l.source.pos ≤ src.pos := by
      have := Cursor.next_pos_le l.source
      rw [h] at this; exact this
    cases o with
    | none => simpa using hp
    | some ch =>
      by_cases hnl : ch = '\n' <;> simp [hnl, hp]

theorem advance_some {l : Lexer} {ch : Char} {l1 : Lexer}
    (h : l.advance = (some ch, l1)) :
    l1.source.pos = l.source.pos + 1 ∧ l1.source.chars = l.source.chars ∧
    l.source.pos < l.source.chars.length ∧
    charAt? l.source.chars l.source.pos = some ch := by
  unfold Lexer.advance at h
  cases hn : l.source.next with
  | mk o src =>
    rw [hn] at h
    cases o with
    | none => simp at h
    | some d =>
      have hs : l.source.next = (some d, src) := hn
      obtain ⟨hp, hc, hlt, hat⟩ := Cursor.next_some hs
      by_cases hnl : d = '\n' <;>
        simp only [hnl, if_true, if_false, reduceIte, Prod.mk.injEq,
          Option.some.injEq] at h <;>
        obtain ⟨rfl, rfl⟩ := h <;>
        exact ⟨hp, hc, hlt, by simpa [hnl] using hat⟩

theorem advance_none {l : Lexer} {l1 : Lexer}
    (h : l.advance = (none, l1)) :
    l1 = l ∧ charAt? l.source.chars l.source.pos = none := by
  unfold Lexer.advance at h
  cases hn : l.source.next with
  | mk o src =>
    rw [hn] at h
    cases o with
    | some d => by_cases hnl : d = '\n' <;> simp [hnl] at h
    | none =>
      obtain ⟨hsrc, hat⟩ := Cursor.next_none hn
      simp only [Prod.mk.injEq] at h
      refine ⟨?_, hat⟩
      rw [← h.2, hsrc]

/-! ### Monotonicity, fuel sufficiency and result shapes of the helpers -/

theorem consume_spec (l : Lexer) (target : Char) :
    ((l.consume target).2).source.chars = l.source.chars ∧
    l.source.pos ≤ ((l.consume target).2).source.pos ∧
    (l.consume target).1 ≠ .fuelOut := by
  unfold Lexer.consume
  cases hp : l.source.peekNth 1 with
  | none => exact ⟨rfl, le_rfl, by simp⟩
  | some next =>
    dsimp only
    split_ifs with hne
    · exact ⟨rfl, le_rfl, by simp⟩
    · cases hadv : l.advance with
      | mk o l2 =>
        cases o with
        | some c =>
          obtain ⟨hp1, hc1, -, -⟩ := advance_some hadv
          refine ⟨hc1, ?_, by simp⟩
          show l.source.pos ≤ l2.source.pos
          omega
        | none =>
          obtain ⟨rfl, -⟩ := advance_none hadv
          exact ⟨rfl, le_rfl, by simp⟩

theorem commentLoop_spec : ∀ (fuel : Nat) (l : Lexer),
    ((commentLoop fuel l).2).source.chars = l.source.chars ∧
    l.source.pos ≤ ((commentLoop fuel l).2).source.pos ∧
    (l.source.chars.length - l.source.pos < fuel →
      (commentLoop fuel l).1 ≠ .fuelOut) := by
  intro fuel
  induction fuel with
  | zero => intro l; exact ⟨rfl, le_rfl, by omega⟩
  | succ fuel ih =>
    intro l
    rw [commentLoop]
    cases hp : l.source.peekNth 1 with
    | none => exact ⟨rfl, le_rfl, fun _ => by simp⟩
    | some ch =>
      dsimp only
      split_ifs with hnl
      · exact ⟨rfl, le_rfl, fun _ => by simp⟩
      · have hp2 : charAt? l.source.chars (l.source.pos + 1) = some ch := hp
        have hlt : l.source.pos + 1 < l.source.chars.length :=
          charAt?_some_lt hp2
        cases hadv : l.advance with
        | mk o l1 =>
          have hc1 : l1.source.chars = l.source.chars := by
            have := advance_chars l
            rw [hadv] at this; exact this
          have hp1 : l1.source.pos = l.source.pos + 1 := by
            cases o with
            | some c => exact (advance_some hadv).1
            | none =>
              obtain ⟨-, hat⟩ := advance_none hadv
              have hlt2 : l.source.pos < l.source.chars.length := by omega
              obtain ⟨c, hc⟩ := charAt?_isSome_of_lt hlt2
              rw [hc] at hat; cases hat
          dsimp only
          obtain ⟨c1, p1, f1⟩ := ih l1
          exact ⟨c1.trans hc1, by omega, fun hf => f1 (by rw [hc1, hp1]; omega)⟩

theorem stringLoop_spec : ∀ (fuel : Nat) (l : Lexer),
    ((stringLoop fuel l).2).source.chars = l.source.chars ∧
    l.source.pos ≤ ((stringLoop fuel l).2).source.pos ∧
    ((stringLoop fuel l).2).start = l.start ∧
    ((stringLoop fuel l).2).current = l.current ∧
    (l.source.chars.length - l.source.pos < fuel →
      (stringLoop fuel l).1 ≠ .fuelOut) := by
  intro fuel
  induction fuel with
  | zero => intro l; exact ⟨rfl, le_rfl, rfl, rfl, by omega⟩
  | succ fuel ih =>
    intro l
    rw [stringLoop]
    cases hp : l.source.peekNth 1 with
    | none => exact ⟨rfl, le_rfl, rfl, rfl, fun _ => by simp⟩
    | some ch =>
      dsimp only
      split_ifs with hnl hq
      · exact ⟨rfl, le_rfl, rfl, rfl, fun _ => by simp⟩
      · exact ⟨rfl, le_rfl, rfl, rfl, fun _ => by simp⟩
      · have hp2 : charAt? l.source.chars (l.source.pos + 1) = some ch := hp
        have hlt : l.source.pos + 1 < l.source.chars.length :=
          charAt?_some_lt hp2
        have hc1 : ((l.source.next).2).chars = l.source.chars :=
          Cursor.next_chars l.source
        have hp1 : ((l.source.next).2).pos = l.source.pos + 1 := by
          unfold Cursor.next
          have hlt2 : l.source.pos < l.source.chars.length := by omega
          obtain ⟨c, hc⟩ := charAt?_isSome_of_lt hlt2
          rw [hc]
        obtain ⟨c1, p1, s1, u1, f1⟩ := ih { l with source := (l.source.next).2 }
        refine ⟨c1.trans hc1, ?_, s1, u1, fun hf => f1 ?_⟩
        · simp only at p1; omega
        · simp only [hc1, hp1]; omega

theorem numberLoop_spec : ∀ (fuel : Nat) (l : Lexer) (b : Bool),
    ((numberLoop fuel l b).2).source.chars = l.source.chars ∧
    l.source.pos ≤ ((numberLoop fuel l b).2).source.pos ∧
    (l.source.chars.length - l.source.pos < fuel →
      (numberLoop fuel l b).1 ≠ .fuelOut) := by
  intro fuel
  induction fuel with
  | zero => intro l b; exact ⟨rfl, le_rfl, by omega⟩
  | succ fuel ih =>
    intro l b
    rw [numberLoop]
    cases hp : l.source.peekNth 0 with
    | none => exact ⟨rfl, le_rfl, fun _ => by simp⟩
    | some ch =>
      have hp2 : charAt? l.source.chars (l.source.pos + 0) = some ch := hp
      have hlt : l.source.pos < l.source.chars.length := by
        have := charAt?_some_lt hp2
        omega
      have key : ∀ b2 : Bool,
          ((numberLoop fuel (l.advance).2 b2).2).source.chars =
            l.source.chars ∧
          l.source.pos ≤ ((numberLoop fuel (l.advance).2 b2).2).source.pos ∧
          (l.source.chars.length - l.source.pos < fuel + 1 →
            (numberLoop fuel (l.advance).2 b2).1 ≠ .fuelOut) := by
        intro b2
        cases hadv : l.advance with
        | mk o l1 =>
          have hc1 : l1.source.chars = l.source.chars := by
            have := advance_chars l
            rw [hadv] at this; exact this
          have hp1 : l1.source.pos = l.source.pos + 1 := by
            cases o with
            | some c => exact (advance_some hadv).1
            | none =>
              obtain ⟨-, hat⟩ := advance_none hadv
              obtain ⟨c, hc⟩ := charAt?_isSome_of_lt hlt
              rw [hc] at hat; cases hat
          dsimp only
          obtain ⟨c1, p1, f1⟩ := ih l1 b2
          exact ⟨c1.trans hc1, by omega, fun hf => f1 (by rw [hc1, hp1]; omega)⟩
      dsimp only
      split_ifs with hd hdot
      · exact key b
      · exact key true
      · exact ⟨rfl, le_rfl, fun _ => by simp⟩

theorem identLoop_spec : ∀ (fuel : Nat) (l : Lexer),
    ((identLoop fuel l).2).source.chars = l.source.chars ∧
    l.source.pos ≤ ((identLoop fuel l).2).source.pos ∧
    (l.source.chars.length - l.source.pos < fuel →
      (identLoop fuel l).1 ≠ .fuelOut) := by
  intro fuel
  induction fuel with
  | zero => intro l; exact ⟨rfl, le_rfl, by omega⟩
  | succ fuel ih =>
    intro l
    rw [identLoop]
    cases hp : l.source.peekNth 0 with
    | none => exact ⟨rfl, le_rfl, fun _ => by simp⟩
    | some ch =>
      have hp2 : charAt? l.source.chars (l.source.pos + 0) = some ch := hp
      have hlt : l.source.pos < l.source.chars.length := by
        have := charAt?_some_lt hp2
        omega
      dsimp only
      split_ifs with ha
      · cases hadv : l.advance with
        | mk o l1 =>
          have hc1 : l1.source.chars = l.source.chars := by
            have := advance_chars l
            rw [hadv] at this; exact this
          have hp1 : l1.source.pos = l.source.pos + 1 := by
            cases o with
            | some c => exact (advance_some hadv).1
            | none =>
              obtain ⟨-, hat⟩ := advance_none hadv
              obtain ⟨c, hc⟩ := charAt?_isSome_of_lt hlt
              rw [hc] at hat; cases hat
          dsimp only
          obtain ⟨c1, p1, f1⟩ := ih l1
          exact ⟨c1.trans hc1, by omega, fun hf => f1 (by rw [hc1, hp1]; omega)⟩
      · exact ⟨rfl, le_rfl, fun _ => by simp⟩

theorem keywordLookup_no_minus {s : String} {ty : TokenType}
    (h : keywordLookup s = some ty) :
    ty ≠ .Minus ∧ ty ≠ .MinusEqual ∧ ty ≠ .Eof := by
  unfold keywordLookup at h
  rw [Option.map_eq_some'] at h
  obtain ⟨a, hfind, hty⟩ := h
  have hmem : a ∈ keywords := List.mem_of_find?_eq_some hfind
  subst hty
  fin_cases hmem <;> exact ⟨by simp, by simp, by simp⟩

theorem handleComment_spec (l : Lexer) :
    ((l.handleComment).2).source.chars = l.source.chars ∧
    l.source.pos ≤ ((l.handleComment).2).source.pos ∧
    (l.handleComment).1 ≠ .fuelOut := by
  unfold Lexer.handleComment
  cases hn : l.source.next with
  | mk o src =>
    cases o with
    | none =>
      obtain ⟨rfl, -⟩ := Cursor.next_none hn
      exact ⟨rfl, le_rfl, by simp⟩
    | some c =>
      obtain ⟨hp, hc, hlt, -⟩ := Cursor.next_some hn
      dsimp only
      obtain ⟨c1, p1, f1⟩ :=
        commentLoop_spec l.fuelBound { l with source := src }
      refine ⟨by rw [c1]; exact hc, ?_, f1 ?_⟩
      · simp only at p1 ⊢; omega
      · simp only [Lexer.fuelBound, hc, hp]; omega

theorem handleChar_spec (l : Lexer) :
    ((l.handleChar).2).source.chars = l.source.chars ∧
    l.source.pos ≤ ((l.handleChar).2).source.pos ∧
    (l.handleChar).1 ≠ .fuelOut ∧
    (∀ ty, (l.handleChar).1 = .ok ty → ∃ c, ty = .Character c) := by
  unfold Lexer.handleChar
  cases hadv : l.advance with
  | mk o l2 =>
    cases o with
    | none =>
      obtain ⟨rfl, -⟩ := advance_none hadv
      exact ⟨rfl, le_rfl, by simp, by simp⟩
    | some ch =>
      obtain ⟨hp1, hc1, -, -⟩ := advance_some hadv
      dsimp only
      obtain ⟨cc, cp, cf⟩ := consume_spec l2 '\x27'
      cases hcons : l2.consume '\x27' with
      | mk res l3 =>
        rw [hcons] at cc cp cf
        dsimp only at cc cp cf
        cases res with
        | ok a =>
          dsimp only
          refine ⟨by rw [cc]; exact hc1, by omega, by simp, ?_⟩
          intro ty hty
          injection hty with hty
          exact ⟨ch, hty.symm⟩
        | err e =>
          dsimp only
          exact ⟨by rw [cc]; exact hc1, by omega, by simp, by simp⟩
        | panicked m =>
          dsimp only
          exact ⟨by rw [cc]; exact hc1, by omega, by simp, by simp⟩
        | fuelOut => exact absurd rfl cf

theorem handleString_spec (l : Lexer) :
    ((l.handleString).2).source.chars = l.source.chars ∧
    l.source.pos ≤ ((l.handleString).2).source.pos ∧
    (l.handleString).1 ≠ .fuelOut ∧
    (∀ ty, (l.handleString).1 = .ok ty → ∃ s, ty = .String s) := by
  unfold Lexer.handleString
  obtain ⟨c1, p1, -, -, f1⟩ := stringLoop_spec l.fuelBound l
  cases hloop : stringLoop l.fuelBound l with
  | mk res l2 =>
    rw [hloop] at c1 p1 f1
    dsimp only at c1 p1 f1
    cases res with
    | ok a =>
      dsimp only
      cases hsub : l2.source.substring l2.start l2.current with
      | some s => exact ⟨c1, p1, by simp, by intro ty hty; injection hty with hty; exact ⟨s, hty.symm⟩⟩
      | none => exact ⟨c1, p1, by simp, by simp⟩
    | err e => exact ⟨c1, p1, by simp, by simp⟩
    | panicked m => exact ⟨c1, p1, by simp, by simp⟩
    | fuelOut =>
      exact absurd rfl (f1 (by simp only [Lexer.fuelBound]; omega))

theorem getLexeme_shape (l : Lexer) :
    (∃ s, l.getLexeme = .ok s) ∨
    l.getLexeme = .panicked "start and current should always be valid" := by
  unfold Lexer.getLexeme
  cases l.source.substring l.start l.current <;> simp

theorem handleNumber_spec (l : Lexer) :
    ((l.handleNumber).2).source.chars = l.source.chars ∧
    l.source.pos ≤ ((l.handleNumber).2).source.pos ∧
    (l.handleNumber).1 ≠ .fuelOut ∧
    (∀ ty, (l.handleNumber).1 = .ok ty →
      (∃ s, ty = .Decimal s) ∨ (∃ n, ty = .Integer n)) := by
  unfold Lexer.handleNumber
  obtain ⟨c1, p1, f1⟩ := numberLoop_spec l.fuelBound l false
  cases hloop : numberLoop l.fuelBound l false with
  | mk res l2 =>
    rw [hloop] at c1 p1 f1
    dsimp only at c1 p1 f1
    cases res with
    | ok isFloat =>
      dsimp only
      cases hlex : l2.getLexeme with
      | ok lexeme =>
        by_cases hf : isFloat = true
        · subst hf
          dsimp only
          cases hpf : parseF64? lexeme with
          | some v =>
            refine ⟨c1, p1, by simp, ?_⟩
            intro ty hty
            injection hty with hty
            exact Or.inl ⟨v, hty.symm⟩
          | none => exact ⟨c1, p1, by simp, by simp⟩
        · have hf2 : isFloat = false := by
            cases isFloat
            · rfl
            · exact absurd rfl hf
          subst hf2
          dsimp only
          cases hpu : parseU64? lexeme with
          | some v =>
            refine ⟨c1, p1, by simp, ?_⟩
            intro ty hty
            injection hty with hty
            exact Or.inr ⟨v, hty.symm⟩
          | none => exact ⟨c1, p1, by simp, by simp⟩
      | err e => exact ⟨c1, p1, by simp, by simp⟩
      | panicked m => exact ⟨c1, p1, by simp, by simp⟩
      | fuelOut =>
        have hsh := getLexeme_shape l2
        rw [hlex] at hsh
        rcases hsh with ⟨s, h⟩ | h <;> exact Scan.noConfusion h
    | err e => exact ⟨c1, p1, by simp, by simp⟩
    | panicked m => exact ⟨c1, p1, by simp, by simp⟩
    | fuelOut =>
      exact absurd rfl (f1 (by simp only [Lexer.fuelBound]; omega))

theorem handleIdentifier_spec (l : Lexer) :
    ((l.handleIdentifier).2).source.chars = l.source.chars ∧
    l.source.pos ≤ ((l.handleIdentifier).2).source.pos ∧
    (l.handleIdentifier).1 ≠ .fuelOut ∧
    (∀ ty, (l.handleIdentifier).1 = .ok ty →
      ty ≠ .Minus ∧ ty ≠ .MinusEqual ∧ ty ≠ .Eof) := by
  unfold Lexer.handleIdentifier
  obtain ⟨c1, p1, f1⟩ := identLoop_spec l.fuelBound l
  cases hloop : identLoop l.fuelBound l with
  | mk res l2 =>
    rw [hloop] at c1 p1 f1
    dsimp only at c1 p1 f1
    cases res with
    | ok a =>
      dsimp only
      cases hlex : l2.getLexeme with
      | ok lexeme =>
        refine ⟨c1, p1, by simp, ?_⟩
        intro ty hty
        injection hty with hty
        cases hkw : keywordLookup lexeme with
        | some kw =>
          rw [hkw] at hty
          simp only [Option.getD_some] at hty
          subst hty
          exact keywordLookup_no_minus hkw
        | none =>
          rw [hkw] at hty
          simp only [Option.getD_none] at hty
          subst hty
          exact ⟨by simp, by simp, by simp⟩
      | err e => exact ⟨c1, p1, by simp, by simp⟩
      | panicked m => exact ⟨c1, p1, by simp, by simp⟩
      | fuelOut =>
        have hsh := getLexeme_shape l2
        rw [hlex] at hsh
        rcases hsh with ⟨s, h⟩ | h <;> exact Scan.noConfusion h
    | err e => exact ⟨c1, p1, by simp, by simp⟩
    | panicked m => exact ⟨c1, p1, by simp, by simp⟩
    | fuelOut =>
      exact absurd rfl (f1 (by simp only [Lexer.fuelBound]; omega))

/-- Packaging helper: all `nextToken_spec` obligations for a branch that
ends in `finishToken` after the initial consuming `advance`. -/
theorem pack_finish {l l1 : Lexer}
    (hc1 : l1.source.chars = l.source.chars)
    (hp1 : l1.source.pos = l.source.pos + 1)
    (hlt : l.source.pos < l.source.chars.length)
    (lx : Lexer) (ty : TokenType)
    (hcx : lx.source.chars = l1.source.chars)
    (hpx : l1.source.pos ≤ lx.source.pos)
    (hty : ty ≠ .Minus ∧ ty ≠ .MinusEqual) :
    ((lx.finishToken ty).2).source.chars = l.source.chars ∧
    l.source.pos ≤ ((lx.finishToken ty).2).source.pos ∧
    (lx.finishToken ty).1 ≠ .fuelOut ∧
    ((∃ t, (lx.finishToken ty).1 = .ok t ∧ t.ttype = .Eof) ∨
      (l.source.pos < l.source.chars.length ∧
       l.source.pos < ((lx.finishToken ty).2).source.pos)) ∧
    (∀ t, (lx.finishToken ty).1 = .ok t →
      t.ttype ≠ .Minus ∧ t.ttype ≠ .MinusEqual) := by
  unfold Lexer.finishToken
  refine ⟨hcx.trans hc1, by dsimp only; omega, by simp,
    Or.inr ⟨hlt, by dsimp only; omega⟩, ?_⟩
  intro t ht
  dsimp only at ht
  injection ht with ht
  subst ht
  exact hty


/-- The central facts about one `next_token` step: the source text is
unchanged, the position never moves backwards, the supplied fuel is never
exhausted, the step either yields the `Eof` marker or consumes at least one
character, and an `Ok` token is never of kind `Minus`/`MinusEqual`. -/
theorem nextToken_spec : ∀ (fuel : Nat) (l : Lexer),
    l.source.chars.length - l.source.pos < fuel →
    ((Lexer.nextToken fuel l).2).source.chars = l.source.chars ∧
    l.source.pos ≤ ((Lexer.nextToken fuel l).2).source.pos ∧
    (Lexer.nextToken fuel l).1 ≠ .fuelOut ∧
    ((∃ t, (Lexer.nextToken fuel l).1 = .ok t ∧ t.ttype = .Eof) ∨
      (l.source.pos < l.source.chars.length ∧
       l.source.pos < ((Lexer.nextToken fuel l).2).source.pos)) ∧
    (∀ t, (Lexer.nextToken fuel l).1 = .ok t →
       t.ttype ≠ .Minus ∧ t.ttype ≠ .MinusEqual) := by
  intro fuel
  induction fuel with
  | zero => intro l h; exact absurd h (by omega)
  | succ fuel ih =>
    intro l hfuel
    rw [Lexer.nextToken]
    cases hadv : l.advance with
    | mk o l1 =>
      cases o with
      | none =>
        obtain ⟨rfl, -⟩ := advance_none hadv
        dsimp only
        refine ⟨rfl, le_rfl, by simp, Or.inl ⟨_, rfl, rfl⟩, ?_⟩
        intro t ht
        injection ht with ht
        subst ht
        exact ⟨by simp, by simp⟩
      | some ch =>
        obtain ⟨hp1, hc1, hlt, -⟩ := advance_some hadv
        have hlen : l1.source.chars.length = l.source.chars.length := by
          rw [hc1]
        dsimp only
        by_cases hch0 : ch = '+'
        · rw [if_pos hch0]
          cases hpk : l1.source.peekNth 0 with
          | none => exact pack_finish hc1 hp1 hlt _ _ rfl le_rfl ⟨by simp, by simp⟩
          | some c =>
            dsimp only
            by_cases hq0 : c = '='
            · rw [if_pos hq0]
              exact pack_finish hc1 hp1 hlt _ _ (advance_chars l1) (advance_pos_le l1) ⟨by simp, by simp⟩
            · rw [if_neg hq0]
              exact pack_finish hc1 hp1 hlt _ _ rfl le_rfl ⟨by simp, by simp⟩
        · rw [if_neg hch0]
          by_cases hch1 : ch = '-'
          · rw [if_pos hch1]
            cases hpk : l1.source.peekNth 0 with
            | none => exact pack_finish hc1 hp1 hlt _ _ rfl le_rfl ⟨by simp, by simp⟩
            | some c =>
              dsimp only
              by_cases hq0 : c = '='
              · rw [if_pos hq0]
                exact pack_finish hc1 hp1 hlt _ _ (advance_chars l1) (advance_pos_le l1) ⟨by simp, by simp⟩
              · rw [if_neg hq0]
                by_cases hq1 : c = '>'
                · rw [if_pos hq1]
                  exact pack_finish hc1 hp1 hlt _ _ (advance_chars l1) (advance_pos_le l1) ⟨by simp, by simp⟩
                · rw [if_neg hq1]
                  exact pack_finish hc1 hp1 hlt _ _ rfl le_rfl ⟨by simp, by simp⟩
          · rw [if_neg hch1]
            by_cases hch2 : ch = '*'
            · rw [if_pos hch2]
              cases hpk : l1.source.peekNth 0 with
              | none => exact pack_finish hc1 hp1 hlt _ _ rfl le_rfl ⟨by simp, by simp⟩
              | some c =>
                dsimp only
                by_cases hq0 : c = '='
                · rw [if_pos hq0]
                  exact pack_finish hc1 hp1 hlt _ _ (advance_chars l1) (advance_pos_le l1) ⟨by simp, by simp⟩
                · rw [if_neg hq0]
                  exact pack_finish hc1 hp1 hlt _ _ rfl le_rfl ⟨by simp, by simp⟩
            · rw [if_neg hch2]
              by_cases hch3 : ch = '/'
              · rw [if_pos hch3]
                cases hpk : l1.source.peekNth 0 with
                | none => exact pack_finish hc1 hp1 hlt _ _ rfl le_rfl ⟨by simp, by simp⟩
                | some c =>
                  dsimp only
                  by_cases hq0 : c = '='
                  · rw [if_pos hq0]
                    exact pack_finish hc1 hp1 hlt _ _ (advance_chars l1) (advance_pos_le l1) ⟨by simp, by simp⟩
                  · rw [if_neg hq0]
                    by_cases hq1 : c = '/'
                    · rw [if_pos hq1]
                      cases hh : l1.handleComment with
                      | mk res l2 =>
                        have hsp := handleComment_spec l1
                        rw [hh] at hsp
                        dsimp only at hsp
                        obtain ⟨hcx, hpx, hnf⟩ := hsp
                        cases res with
                        | ok ty =>
                          exact pack_finish hc1 hp1 hlt _ _ hcx hpx ⟨by simp, by simp⟩
                        | err e =>
                          dsimp only
                          exact ⟨hcx.trans hc1, by omega, by simp, Or.inr ⟨hlt, by omega⟩, by simp⟩
                        | panicked m =>
                          dsimp only
                          exact ⟨hcx.trans hc1, by omega, by simp, Or.inr ⟨hlt, by omega⟩, by simp⟩
                        | fuelOut => exact absurd rfl hnf
                    · rw [if_neg hq1]
                      exact pack_finish hc1 hp1 hlt _ _ rfl le_rfl ⟨by simp, by simp⟩
              · rw [if_neg hch3]
                by_cases hch4 : ch = '%'
                · rw [if_pos hch4]
                  cases hpk : l1.source.peekNth 0 with
                  | none => exact pack_finish hc1 hp1 hlt _ _ rfl le_rfl ⟨by simp, by simp⟩
                  | some c =>
                    dsimp only
                    by_cases hq0 : c = '='
                    · rw [if_pos hq0]
                      exact pack_finish hc1 hp1 hlt _ _ (advance_chars l1) (advance_pos_le l1) ⟨by simp, by simp⟩
                    · rw [if_neg hq0]
                      exact pack_finish hc1 hp1 hlt _ _ rfl le_rfl ⟨by simp, by simp⟩
                · rw [if_neg hch4]
                  by_cases hch5 : ch = '!'
                  · rw [if_pos hch5]
                    cases hpk : l1.source.peekNth 0 with
                    | none => exact pack_finish hc1 hp1 hlt _ _ rfl le_rfl ⟨by simp, by simp⟩
                    | some c =>
                      dsimp only
                      by_cases hq0 : c = '='
                      · rw [if_pos hq0]
                        exact pack_finish hc1 hp1 hlt _ _ (advance_chars l1) (advance_pos_le l1) ⟨by simp, by simp⟩
                      · rw [if_neg hq0]
                        exact pack_finish hc1 hp1 hlt _ _ rfl le_rfl ⟨by simp, by simp⟩
                  · rw [if_neg hch5]
                    by_cases hch6 : ch = '='
                    · rw [if_pos hch6]
                      cases hpk : l1.source.peekNth 0 with
                      | none => exact pack_finish hc1 hp1 hlt _ _ rfl le_rfl ⟨by simp, by simp⟩
                      | some c =>
                        dsimp only
                        by_cases hq0 : c = '='
                        · rw [if_pos hq0]
                          exact pack_finish hc1 hp1 hlt _ _ (advance_chars l1) (advance_pos_le l1) ⟨by simp, by simp⟩
                        · rw [if_neg hq0]
                          exact pack_finish hc1 hp1 hlt _ _ rfl le_rfl ⟨by simp, by simp⟩
                    · rw [if_neg hch6]
                      by_cases hch7 : ch = '>'
                      · rw [if_pos hch7]
                        cases hpk : l1.source.peekNth 0 with
                        | none => exact pack_finish hc1 hp1 hlt _ _ rfl le_rfl ⟨by simp, by simp⟩
                        | some c =>
                          dsimp only
                          by_cases hq0 : c = '='
                          · rw [if_pos hq0]
                            exact pack_finish hc1 hp1 hlt _ _ (advance_chars l1) (advance_pos_le l1) ⟨by simp, by simp⟩
                          · rw [if_neg hq0]
                            exact pack_finish hc1 hp1 hlt _ _ rfl le_rfl ⟨by simp, by simp⟩
                      · rw [if_neg hch7]
                        by_cases hch8 : ch = '<'
                        · rw [if_pos hch8]
                          cases hpk : l1.source.peekNth 0 with
                          | none => exact pack_finish hc1 hp1 hlt _ _ rfl le_rfl ⟨by simp, by simp⟩
                          | some c =>
                            dsimp only
                            by_cases hq0 : c = '='
                            · rw [if_pos hq0]
                              exact pack_finish hc1 hp1 hlt _ _ (advance_chars l1) (advance_pos_le l1) ⟨by simp, by simp⟩
                            · rw [if_neg hq0]
                              exact pack_finish hc1 hp1 hlt _ _ rfl le_rfl ⟨by simp, by simp⟩
                        · rw [if_neg hch8]
                          by_cases hch9 : ch = '&'
                          · rw [if_pos hch9]
                            cases hpk : l1.source.peekNth 0 with
                            | none => exact pack_finish hc1 hp1 hlt _ _ rfl le_rfl ⟨by simp, by simp⟩
                            | some c =>
                              dsimp only
                              by_cases hq0 : c = '&'
                              · rw [if_pos hq0]
                                exact pack_finish hc1 hp1 hlt _ _ (advance_chars l1) (advance_pos_le l1) ⟨by simp, by simp⟩
                              · rw [if_neg hq0]
                                exact pack_finish hc1 hp1 hlt _ _ rfl le_rfl ⟨by simp, by simp⟩
                          · rw [if_neg hch9]
                            by_cases hch10 : ch = '|'
                            · rw [if_pos hch10]
                              cases hpk : l1.source.peekNth 0 with
                              | none => exact pack_finish hc1 hp1 hlt _ _ rfl le_rfl ⟨by simp, by simp⟩
                              | some c =>
                                dsimp only
                                by_cases hq0 : c = '|'
                                · rw [if_pos hq0]
                                  exact pack_finish hc1 hp1 hlt _ _ (advance_chars l1) (advance_pos_le l1) ⟨by simp, by simp⟩
                                · rw [if_neg hq0]
                                  exact pack_finish hc1 hp1 hlt _ _ rfl le_rfl ⟨by simp, by simp⟩
                            · rw [if_neg hch10]
                              by_cases hch11 : ch = ':'
                              · rw [if_pos hch11]
                                exact pack_finish hc1 hp1 hlt _ _ rfl le_rfl ⟨by simp, by simp⟩
                              · rw [if_neg hch11]
                                by_cases hch12 : ch = ','
                                · rw [if_pos hch12]
                                  exact pack_finish hc1 hp1 hlt _ _ rfl le_rfl ⟨by simp, by simp⟩
                                · rw [if_neg hch12]
                                  by_cases hch13 : ch = '.'
                                  · rw [if_pos hch13]
                                    exact pack_finish hc1 hp1 hlt _ _ rfl le_rfl ⟨by simp, by simp⟩
                                  · rw [if_neg hch13]
                                    by_cases hch14 : ch = '{'
                                    · rw [if_pos hch14]
                                      exact pack_finish hc1 hp1 hlt _ _ rfl le_rfl ⟨by simp, by simp⟩
                                    · rw [if_neg hch14]
                                      by_cases hch15 : ch = '['
                                      · rw [if_pos hch15]
                                        exact pack_finish hc1 hp1 hlt _ _ rfl le_rfl ⟨by simp, by simp⟩
                                      · rw [if_neg hch15]
                                        by_cases hch16 : ch = '('
                                        · rw [if_pos hch16]
                                          exact pack_finish hc1 hp1 hlt _ _ rfl le_rfl ⟨by simp, by simp⟩
                                        · rw [if_neg hch16]
                                          by_cases hch17 : ch = '}'
                                          · rw [if_pos hch17]
                                            exact pack_finish hc1 hp1 hlt _ _ rfl le_rfl ⟨by simp, by simp⟩
                                          · rw [if_neg hch17]
                                            by_cases hch18 : ch = ']'
                                            · rw [if_pos hch18]
                                              exact pack_finish hc1 hp1 hlt _ _ rfl le_rfl ⟨by simp, by simp⟩
                                            · rw [if_neg hch18]
                                              by_cases hch19 : ch = ')'
                                              · rw [if_pos hch19]
                                                exact pack_finish hc1 hp1 hlt _ _ rfl le_rfl ⟨by simp, by simp⟩
                                              · rw [if_neg hch19]
                                                by_cases hch20 : ch = ';'
                                                · rw [if_pos hch20]
                                                  exact pack_finish hc1 hp1 hlt _ _ rfl le_rfl ⟨by simp, by simp⟩
                                                · rw [if_neg hch20]
                                                  by_cases hch21 : ch = '\x27'
                                                  · rw [if_pos hch21]
                                                    cases hh : l1.handleChar with
                                                    | mk res l2 =>
                                                      have hsp := handleChar_spec l1
                                                      rw [hh] at hsp
                                                      dsimp only at hsp
                                                      obtain ⟨hcx, hpx, hnf, hshape⟩ := hsp
                                                      cases res with
                                                      | ok ty =>
                                                        obtain ⟨c0, rfl⟩ := hshape ty rfl
                                                        exact pack_finish hc1 hp1 hlt _ _ hcx hpx ⟨by simp, by simp⟩
                                                      | err e =>
                                                        dsimp only
                                                        exact ⟨hcx.trans hc1, by omega, by simp, Or.inr ⟨hlt, by omega⟩, by simp⟩
                                                      | panicked m =>
                                                        dsimp only
                                                        exact ⟨hcx.trans hc1, by omega, by simp, Or.inr ⟨hlt, by omega⟩, by simp⟩
                                                      | fuelOut => exact absurd rfl hnf
                                                  · rw [if_neg hch21]
                                                    by_cases hch22 : ch = '"'
                                                    · rw [if_pos hch22]
                                                      cases hh : l1.handleString with
                                                      | mk res l2 =>
                                                        have hsp := handleString_spec l1
                                                        rw [hh] at hsp
                                                        dsimp only at hsp
                                                        obtain ⟨hcx, hpx, hnf, hshape⟩ := hsp
                                                        cases res with
                                                        | ok ty =>
                                                          obtain ⟨s0, rfl⟩ := hshape ty rfl
                                                          exact pack_finish hc1 hp1 hlt _ _ hcx hpx ⟨by simp, by simp⟩
                                                        | err e =>
                                                          dsimp only
                                                          exact ⟨hcx.trans hc1, by omega, by simp, Or.inr ⟨hlt, by omega⟩, by simp⟩
                                                        | panicked m =>
                                                          dsimp only
                                                          exact ⟨hcx.trans hc1, by omega, by simp, Or.inr ⟨hlt, by omega⟩, by simp⟩
                                                        | fuelOut => exact absurd rfl hnf
                                                    · rw [if_neg hch22]
                                                      by_cases hch23 : isNumericChar ch = true
                                                      · rw [if_pos hch23]
                                                        cases hh : l1.handleNumber with
                                                        | mk res l2 =>
                                                          have hsp := handleNumber_spec l1
                                                          rw [hh] at hsp
                                                          dsimp only at hsp
                                                          obtain ⟨hcx, hpx, hnf, hshape⟩ := hsp
                                                          cases res with
                                                          | ok ty =>
                                                            rcases hshape ty rfl with ⟨s0, rfl⟩ | ⟨n0, rfl⟩ <;>
                                                              exact pack_finish hc1 hp1 hlt _ _ hcx hpx ⟨by simp, by simp⟩
                                                          | err e =>
                                                            dsimp only
                                                            exact ⟨hcx.trans hc1, by omega, by simp, Or.inr ⟨hlt, by omega⟩, by simp⟩
                                                          | panicked m =>
                                                            dsimp only
                                                            exact ⟨hcx.trans hc1, by omega, by simp, Or.inr ⟨hlt, by omega⟩, by simp⟩
                                                          | fuelOut => exact absurd rfl hnf
                                                      · rw [if_neg hch23]
                                                        by_cases hch24 : (isAlphanumericChar ch || decide (ch = '_')) = true
                                                        · rw [if_pos hch24]
                                                          cases hh : l1.handleIdentifier with
                                                          | mk res l2 =>
                                                            have hsp := handleIdentifier_spec l1
                                                            rw [hh] at hsp
                                                            dsimp only at hsp
                                                            obtain ⟨hcx, hpx, hnf, hshape⟩ := hsp
                                                            cases res with
                                                            | ok ty =>
                                                              exact pack_finish hc1 hp1 hlt _ _ hcx hpx ⟨(hshape ty rfl).1, (hshape ty rfl).2.1⟩
                                                            | err e =>
                                                              dsimp only
                                                              exact ⟨hcx.trans hc1, by omega, by simp, Or.inr ⟨hlt, by omega⟩, by simp⟩
                                                            | panicked m =>
                                                              dsimp only
                                                              exact ⟨hcx.trans hc1, by omega, by simp, Or.inr ⟨hlt, by omega⟩, by simp⟩
                                                            | fuelOut => exact absurd rfl hnf
                                                        · rw [if_neg hch24]
                                                          by_cases hch25 : ch = '\n'
                                                          · rw [if_pos hch25]
                                                            have h2 : l1.source.chars.length - l1.source.pos < fuel := by omega
                                                            obtain ⟨r1, r2, r3, r4, r5⟩ := ih { l1 with line := l1.line + 1, col := 1 } h2
                                                            dsimp only at r1 r2 r3 r4 r5
                                                            exact ⟨r1.trans hc1, by omega, r3, Or.inr ⟨hlt, by omega⟩, r5⟩
                                                          · rw [if_neg hch25]
                                                            by_cases hch26 : isWhitespaceChar ch = true
                                                            · rw [if_pos hch26]
                                                              have h2 : l1.source.chars.length - l1.source.pos < fuel := by omega
                                                              obtain ⟨r1, r2, r3, r4, r5⟩ := ih { l1 with start := l1.current } h2
                                                              dsimp only at r1 r2 r3 r4 r5
                                                              exact ⟨r1.trans hc1, by omega, r3, Or.inr ⟨hlt, by omega⟩, r5⟩
                                                            · rw [if_neg hch26]
                                                              dsimp only
                                                              exact ⟨hc1, by omega, by simp, Or.inr ⟨hlt, by omega⟩, by simp⟩
/-- The facts about the `tokenize` loop: the supplied fuel never runs out,
the number of produced results is bounded by the number of unread
characters, and no produced `Ok` token is of kind `Eof`, `Minus` or
`MinusEqual`. -/
theorem tokenizeLoop_spec : ∀ (fuel : Nat) (l : Lexer),
    l.source.chars.length - l.source.pos < fuel →
    tokenizeLoop fuel l ≠ .fuelOut ∧
    (∀ rs, tokenizeLoop fuel l = .results rs →
       rs.length ≤ l.source.chars.length - l.source.pos ∧
       ∀ r ∈ rs, ∀ t, r = Except.ok t →
         t.ttype ≠ .Eof ∧ t.ttype ≠ .Minus ∧ t.ttype ≠ .MinusEqual) := by
  intro fuel
  induction fuel with
  | zero => intro l h; exact absurd h (by omega)
  | succ fuel ih =>
    intro l hfuel
    rw [tokenizeLoop]
    have hnt := nextToken_spec l.fuelBound l
      (by simp only [Lexer.fuelBound]; omega)
    cases hstep : l.nextToken l.fuelBound with
    | mk r l2 =>
      rw [hstep] at hnt
      dsimp only at hnt
      obtain ⟨n1, n2, n3, n4, n5⟩ := hnt
      cases r with
      | ok t =>
        dsimp only
        by_cases he : t.ttype = .Eof
        · rw [if_pos he]
          refine ⟨by simp, ?_⟩
          intro rs hrs
          injection hrs with hrs
          subst hrs
          exact ⟨by simp, by simp⟩
        · rw [if_neg he]
          have hprog : l.source.pos < l.source.chars.length ∧
              l.source.pos < l2.source.pos := by
            rcases n4 with ⟨t2, ht2, heof⟩ | h
            · injection ht2 with ht2
              rw [← ht2] at heof
              exact absurd heof he
            · exact h
          have hlen : l2.source.chars.length = l.source.chars.length := by
            rw [n1]
          have h2 : l2.source.chars.length - l2.source.pos < fuel := by
            omega
          obtain ⟨f2, res2⟩ := ih l2 h2
          cases hrec : tokenizeLoop fuel l2 with
          | results rs2 =>
            refine ⟨by simp, ?_⟩
            intro rs hrs
            injection hrs with hrs
            subst hrs
            obtain ⟨hb, hm⟩ := res2 rs2 hrec
            refine ⟨by simp only [List.length_cons]; omega, ?_⟩
            intro r hr t2 hrt
            rcases List.mem_cons.mp hr with rfl | hr2
            · injection hrt with hrt
              subst hrt
              exact ⟨he, n5 t rfl⟩
            · exact hm r hr2 t2 hrt
          | panicked m => exact ⟨by simp, by simp⟩
          | fuelOut => exact absurd hrec f2
      | err e =>
        dsimp only
        have hprog : l.source.pos < l.source.chars.length ∧
            l.source.pos < l2.source.pos := by
          rcases n4 with ⟨t2, ht2, heof⟩ | h
          · exact Scan.noConfusion ht2
          · exact h
        have hlen : l2.source.chars.length = l.source.chars.length := by
          rw [n1]
        have h2 : l2.source.chars.length - l2.source.pos < fuel := by omega
        obtain ⟨f2, res2⟩ := ih l2 h2
        cases hrec : tokenizeLoop fuel l2 with
        | results rs2 =>
          refine ⟨by simp, ?_⟩
          intro rs hrs
          injection hrs with hrs
          subst hrs
          obtain ⟨hb, hm⟩ := res2 rs2 hrec
          refine ⟨by simp only [List.length_cons]; omega, ?_⟩
          intro r hr t2 hrt
          rcases List.mem_cons.mp hr with rfl | hr2
          · exact Except.noConfusion hrt
          · exact hm r hr2 t2 hrt
        | panicked m => exact ⟨by simp, by simp⟩
        | fuelOut => exact absurd hrec f2
      | panicked m => exact ⟨by simp, by simp⟩
      | fuelOut => exact absurd rfl n3

/-- **C2** (counter-evidence): tokenizing `"// anything\nfn"` does **not**
yield a `Comment` token directly followed by an `Fn` keyword token one line
later.  The comment loop's `peek_nth(1)` stops one character early (leaving
`g` unread), the newline is counted twice (once in `advance`, once in the
`'\n'` dispatch arm), and the lexeme boundaries reset by `advance` make
`get_lexeme` return text from stale absolute offsets, so the output is
`Comment(1,9)`, `Identifier "n"(1,10)`, `Identifier "//"(3,3)`. -/
theorem comment_newline_behavior :
    tokenize "// anything\nfn" =
      .results [.ok { ttype := .Comment, line := 1, col := 9 },
        .ok { ttype := .Identifier "n", line := 1, col := 10 },
        .ok { ttype := .Identifier "//", line := 3, col := 3 }] := by
  rfl

/-- **C3** (counter-evidence): tokenizing `"3.14.159"` does **not** return a
`Decimal` token: `handle_number` consumes both dots into the lexeme
`"3.14.159"`, which is not a valid `f64` literal, so
`parse::<f64>().expect("parsing should never fail")` panics. -/
theorem float_two_dots_panics :
    tokenize "3.14.159" = .panicked "parsing should never fail" := by
  rfl

/-- **C7**: tokenizing a string literal containing a newline before its
closing quote yields an `UnexpectedCharacter` error whose `got` field is the
newline character (it is the first element of the output; the remaining
elements are what the lexer, which does not resynchronize, then produces
from the rest of the input). -/
theorem string_newline_unexpected_character :
    tokenize "\"ab\ncd\"" =
      .results [.error (.UnexpectedCharacter 1 1 "a valid string" '\n'),
        .ok { ttype := .Identifier "\"a", line := 1, col := 2 },
        .ok { ttype := .Identifier "\"a", line := 3, col := 3 },
        .ok { ttype := .String "b", line := 3, col := 4 }] := by
  rfl

/-- **C8**: tokenizing the unterminated character literal `"'a"` (input ends
before a closing quote) yields an `UnexpectedEof` error. -/
theorem unterminated_char_unexpected_eof :
    tokenize "\x27a" = .results [.error (.UnexpectedEof 1 2 "\x27")] := by
  rfl

/-! ### Scanning behaviour at the end of the input -/

theorem advance_at_end (l : Lexer)
    (h : l.source.chars.length ≤ l.source.pos) : l.advance = (none, l) := by
  unfold Lexer.advance Cursor.next
  rw [charAt?_none_of_le h]

theorem nextToken_at_end (l : Lexer) (fuel : Nat)
    (h : l.source.chars.length ≤ l.source.pos) :
    Lexer.nextToken (fuel + 1) l =
      (.ok { ttype := .Eof, line := l.line, col := l.col }, l) := by
  rw [Lexer.nextToken, advance_at_end l h]

theorem tokenizeLoop_at_end (l : Lexer) (fuel : Nat)
    (h : l.source.chars.length ≤ l.source.pos) :
    tokenizeLoop (fuel + 1) l = .results [] := by
  rw [tokenizeLoop]
  have hfb : l.fuelBound = l.source.chars.length + 1 := rfl
  rw [hfb, nextToken_at_end l _ h]
  dsimp only
  rw [if_pos rfl]

/-! ### Scanning the last character of the input -/

theorem peek_after_snoc (pre : List Char) (c : Char) (n : Nat) :
    (Cursor.mk (pre ++ [c]) (pre.length + 1)).peekNth n = none := by
  unfold Cursor.peekNth
  dsimp only
  exact charAt?_snoc_none pre c (by omega)

theorem substring_snoc (pre : List Char) (c : Char) (p : Nat) :
    (Cursor.mk (pre ++ [c]) p).substring pre.length (pre.length + 1) =
      some (String.mk [c]) := by
  unfold Cursor.substring
  rw [if_pos ⟨by omega, by simp⟩]
  have hd : ((pre ++ [c]).drop pre.length).take (pre.length + 1 - pre.length) =
      [c] := by
    rw [List.drop_left]
    simp
  rw [hd]

theorem LState_advance (pre : List Char) (c : Char) (c0 : Nat)
    (hnl : c ≠ '\n') :
    (LState pre c c0).advance =
      (some c,
       { source := { chars := pre ++ [c], pos := pre.length + 1 },
         start := pre.length, current := pre.length + 1,
         line := 1, col := c0 + 1 }) := by
  unfold LState Lexer.advance Cursor.next
  rw [charAt?_snoc_self]
  dsimp only
  rw [if_neg hnl]

theorem LState_advance_nl (pre : List Char) (c0 : Nat) :
    (LState pre '\n' c0).advance =
      (some '\n',
       { source := { chars := pre ++ ['\n'], pos := pre.length + 1 },
         start := 0, current := 0, line := 2, col := 1 }) := by
  unfold LState Lexer.advance Cursor.next
  rw [charAt?_snoc_self]
  dsimp only
  rw [if_pos rfl]

theorem parseU64_single (c : Char) (h : isNumericChar c = true)
    (hp : c ≠ '+') : parseU64? (String.mk [c]) = some (c.toNat - 48) := by
  unfold parseU64?
  dsimp only
  rw [if_neg hp]
  rw [if_pos ⟨by simp, by simp [h]⟩]
  have hv : digitsToNat [c] = c.toNat - 48 := by
    simp [digitsToNat]
  rw [hv]
  rw [if_pos]
  simp only [isNumericChar, Bool.and_eq_true, decide_eq_true_eq] at h
  omega

theorem keywordLookup_single (c : Char) :
    keywordLookup (String.mk [c]) = none := by
  have h : keywords.find? (fun p => p.1 == String.mk [c]) = none := by
    rw [List.find?_eq_none]
    intro x hx
    fin_cases hx <;>
      (simp only [beq_iff_eq]
       intro hEq
       have hd := congrArg String.data hEq
       injection hd with h1 h2
       exact List.noConfusion h2)
  unfold keywordLookup
  rw [h]
  rfl

theorem singleTok_ne_eof {c : Char} {ty : TokenType}
    (h : singleTok c = some ty) : ty ≠ .Eof ∧ ty ≠ .Minus ∧
      ty ≠ .MinusEqual := by
  unfold singleTok at h
  by_cases hq0 : c = '+'
  · rw [if_pos hq0] at h
    rw [Option.some.injEq] at h
    subst h
    exact ⟨by simp, by simp, by simp⟩
  · rw [if_neg hq0] at h
    by_cases hq1 : c = '-'
    · rw [if_pos hq1] at h
      rw [Option.some.injEq] at h
      subst h
      exact ⟨by simp, by simp, by simp⟩
    · rw [if_neg hq1] at h
      by_cases hq2 : c = '*'
      · rw [if_pos hq2] at h
        rw [Option.some.injEq] at h
        subst h
        exact ⟨by simp, by simp, by simp⟩
      · rw [if_neg hq2] at h
        by_cases hq3 : c = '/'
        · rw [if_pos hq3] at h
          rw [Option.some.injEq] at h
          subst h
          exact ⟨by simp, by simp, by simp⟩
        · rw [if_neg hq3] at h
          by_cases hq4 : c = '%'
          · rw [if_pos hq4] at h
            rw [Option.some.injEq] at h
            subst h
            exact ⟨by simp, by simp, by simp⟩
          · rw [if_neg hq4] at h
            by_cases hq5 : c = '!'
            · rw [if_pos hq5] at h
              rw [Option.some.injEq] at h
              subst h
              exact ⟨by simp, by simp, by simp⟩
            · rw [if_neg hq5] at h
              by_cases hq6 : c = '='
              · rw [if_pos hq6] at h
                rw [Option.some.injEq] at h
                subst h
                exact ⟨by simp, by simp, by simp⟩
              · rw [if_neg hq6] at h
                by_cases hq7 : c = '>'
                · rw [if_pos hq7] at h
                  rw [Option.some.injEq] at h
                  subst h
                  exact ⟨by simp, by simp, by simp⟩
                · rw [if_neg hq7] at h
                  by_cases hq8 : c = '<'
                  · rw [if_pos hq8] at h
                    rw [Option.some.injEq] at h
                    subst h
                    exact ⟨by simp, by simp, by simp⟩
                  · rw [if_neg hq8] at h
                    by_cases hq9 : c = '&'
                    · rw [if_pos hq9] at h
                      rw [Option.some.injEq] at h
                      subst h
                      exact ⟨by simp, by simp, by simp⟩
                    · rw [if_neg hq9] at h
                      by_cases hq10 : c = '|'
                      · rw [if_pos hq10] at h
                        rw [Option.some.injEq] at h
                        subst h
                        exact ⟨by simp, by simp, by simp⟩
                      · rw [if_neg hq10] at h
                        by_cases hq11 : c = ':'
                        · rw [if_pos hq11] at h
                          rw [Option.some.injEq] at h
                          subst h
                          exact ⟨by simp, by simp, by simp⟩
                        · rw [if_neg hq11] at h
                          by_cases hq12 : c = ','
                          · rw [if_pos hq12] at h
                            rw [Option.some.injEq] at h
                            subst h
                            exact ⟨by simp, by simp, by simp⟩
                          · rw [if_neg hq12] at h
                            by_cases hq13 : c = '.'
                            · rw [if_pos hq13] at h
                              rw [Option.some.injEq] at h
                              subst h
                              exact ⟨by simp, by simp, by simp⟩
                            · rw [if_neg hq13] at h
                              by_cases hq14 : c = '{'
                              · rw [if_pos hq14] at h
                                rw [Option.some.injEq] at h
                                subst h
                                exact ⟨by simp, by simp, by simp⟩
                              · rw [if_neg hq14] at h
                                by_cases hq15 : c = '['
                                · rw [if_pos hq15] at h
                                  rw [Option.some.injEq] at h
                                  subst h
                                  exact ⟨by simp, by simp, by simp⟩
                                · rw [if_neg hq15] at h
                                  by_cases hq16 : c = '('
                                  · rw [if_pos hq16] at h
                                    rw [Option.some.injEq] at h
                                    subst h
                                    exact ⟨by simp, by simp, by simp⟩
                                  · rw [if_neg hq16] at h
                                    by_cases hq17 : c = '}'
                                    · rw [if_pos hq17] at h
                                      rw [Option.some.injEq] at h
                                      subst h
                                      exact ⟨by simp, by simp, by simp⟩
                                    · rw [if_neg hq17] at h
                                      by_cases hq18 : c = ']'
                                      · rw [if_pos hq18] at h
                                        rw [Option.some.injEq] at h
                                        subst h
                                        exact ⟨by simp, by simp, by simp⟩
                                      · rw [if_neg hq18] at h
                                        by_cases hq19 : c = ')'
                                        · rw [if_pos hq19] at h
                                          rw [Option.some.injEq] at h
                                          subst h
                                          exact ⟨by simp, by simp, by simp⟩
                                        · rw [if_neg hq19] at h
                                          by_cases hq20 : c = ';'
                                          · rw [if_pos hq20] at h
                                            rw [Option.some.injEq] at h
                                            subst h
                                            exact ⟨by simp, by simp, by simp⟩
                                          · rw [if_neg hq20] at h
                                            by_cases hq21 : c = '\x27'
                                            · rw [if_pos hq21] at h
                                              exact Option.noConfusion h
                                            · rw [if_neg hq21] at h
                                              by_cases hq22 : c = '"'
                                              · rw [if_pos hq22] at h
                                                rw [Option.some.injEq] at h
                                                subst h
                                                exact ⟨by simp, by simp, by simp⟩
                                              · rw [if_neg hq22] at h
                                                by_cases hq23 : isNumericChar c = true
                                                · rw [if_pos hq23] at h
                                                  rw [Option.some.injEq] at h
                                                  subst h
                                                  exact ⟨by simp, by simp, by simp⟩
                                                · rw [if_neg hq23] at h
                                                  by_cases hq24 : (isAlphanumericChar c || decide (c = '_')) = true
                                                  · rw [if_pos hq24] at h
                                                    rw [Option.some.injEq] at h
                                                    subst h
                                                    exact ⟨by simp, by simp, by simp⟩
                                                  · rw [if_neg hq24] at h
                                                    exact Option.noConfusion h

theorem handleString_lastChar (pre : List Char) (c : Char) (c0 : Nat) :
    Lexer.handleString
      (Lexer.mk (Cursor.mk (pre ++ [c]) (pre.length + 1)) pre.length
        (pre.length + 1) 1 (c0 + 1)) =
      (.ok (.String (String.mk [c])),
       Lexer.mk (Cursor.mk (pre ++ [c]) (pre.length + 1)) pre.length
         (pre.length + 1) 1 (c0 + 1)) := by
  unfold Lexer.handleString
  have hfb : (Lexer.mk (Cursor.mk (pre ++ [c]) (pre.length + 1)) pre.length
      (pre.length + 1) 1 (c0 + 1)).fuelBound = (pre.length + 1) + 1 := by
    simp [Lexer.fuelBound]
  rw [hfb, stringLoop]
  dsimp only
  rw [peek_after_snoc]
  dsimp only
  rw [substring_snoc]

theorem handleNumber_lastChar (pre : List Char) (c : Char) (c0 : Nat)
    (h : isNumericChar c = true) (hp : c ≠ '+') :
    Lexer.handleNumber
      (Lexer.mk (Cursor.mk (pre ++ [c]) (pre.length + 1)) pre.length
        (pre.length + 1) 1 (c0 + 1)) =
      (.ok (.Integer (c.toNat - 48)),
       Lexer.mk (Cursor.mk (pre ++ [c]) (pre.length + 1)) pre.length
         (pre.length + 1) 1 (c0 + 1)) := by
  unfold Lexer.handleNumber
  have hfb : (Lexer.mk (Cursor.mk (pre ++ [c]) (pre.length + 1)) pre.length
      (pre.length + 1) 1 (c0 + 1)).fuelBound = (pre.length + 1) + 1 := by
    simp [Lexer.fuelBound]
  rw [hfb, numberLoop]
  dsimp only
  rw [peek_after_snoc]
  dsimp only
  unfold Lexer.getLexeme
  dsimp only
  rw [substring_snoc]
  dsimp only
  rw [if_neg (by simp : ¬((false : Bool) = true))]
  rw [parseU64_single c h hp]

theorem handleIdentifier_lastChar (pre : List Char) (c : Char) (c0 : Nat) :
    Lexer.handleIdentifier
      (Lexer.mk (Cursor.mk (pre ++ [c]) (pre.length + 1)) pre.length
        (pre.length + 1) 1 (c0 + 1)) =
      (.ok (.Identifier (String.mk [c])),
       Lexer.mk (Cursor.mk (pre ++ [c]) (pre.length + 1)) pre.length
         (pre.length + 1) 1 (c0 + 1)) := by
  unfold Lexer.handleIdentifier
  have hfb : (Lexer.mk (Cursor.mk (pre ++ [c]) (pre.length + 1)) pre.length
      (pre.length + 1) 1 (c0 + 1)).fuelBound = (pre.length + 1) + 1 := by
    simp [Lexer.fuelBound]
  rw [hfb, identLoop]
  dsimp only
  rw [peek_after_snoc]
  dsimp only
  unfold Lexer.getLexeme
  dsimp only
  rw [substring_snoc]
  dsimp only
  rw [keywordLookup_single]
  rfl

/-- One `next_token` step on the last character of the input, when that
character produces a token: the result is exactly the token predicted by
`singleTok`, stamped with line 1 and the incremented column. -/
theorem nextToken_lastChar_some (pre : List Char) (c : Char)
    (c0 fuel : Nat) {ty : TokenType} (h : singleTok c = some ty) :
    Lexer.nextToken (fuel + 1) (LState pre c c0) =
      (.ok { ttype := ty, line := 1, col := c0 + 1 },
       Lexer.mk (Cursor.mk (pre ++ [c]) (pre.length + 1))
         (pre.length + 1) (pre.length + 1) 1 (c0 + 1)) := by
  unfold singleTok at h
  by_cases hq0 : c = '+'
  · rw [if_pos hq0] at h
    rw [Option.some.injEq] at h
    subst h
    subst hq0
    rw [Lexer.nextToken, LState_advance pre '+' c0 (by decide)]
    dsimp only
    rw [peek_after_snoc]
    rfl
  · rw [if_neg hq0] at h
    by_cases hq1 : c = '-'
    · rw [if_pos hq1] at h
      rw [Option.some.injEq] at h
      subst h
      subst hq1
      rw [Lexer.nextToken, LState_advance pre '-' c0 (by decide)]
      dsimp only
      rw [peek_after_snoc]
      rfl
    · rw [if_neg hq1] at h
      by_cases hq2 : c = '*'
      · rw [if_pos hq2] at h
        rw [Option.some.injEq] at h
        subst h
        subst hq2
        rw [Lexer.nextToken, LState_advance pre '*' c0 (by decide)]
        dsimp only
        rw [peek_after_snoc]
        rfl
      · rw [if_neg hq2] at h
        by_cases hq3 : c = '/'
        · rw [if_pos hq3] at h
          rw [Option.some.injEq] at h
          subst h
          subst hq3
          rw [Lexer.nextToken, LState_advance pre '/' c0 (by decide)]
          dsimp only
          rw [peek_after_snoc]
          rfl
        · rw [if_neg hq3] at h
          by_cases hq4 : c = '%'
          · rw [if_pos hq4] at h
            rw [Option.some.injEq] at h
            subst h
            subst hq4
            rw [Lexer.nextToken, LState_advance pre '%' c0 (by decide)]
            dsimp only
            rw [peek_after_snoc]
            rfl
          · rw [if_neg hq4] at h
            by_cases hq5 : c = '!'
            · rw [if_pos hq5] at h
              rw [Option.some.injEq] at h
              subst h
              subst hq5
              rw [Lexer.nextToken, LState_advance pre '!' c0 (by decide)]
              dsimp only
              rw [peek_after_snoc]
              rfl
            · rw [if_neg hq5] at h
              by_cases hq6 : c = '='
              · rw [if_pos hq6] at h
                rw [Option.some.injEq] at h
                subst h
                subst hq6
                rw [Lexer.nextToken, LState_advance pre '=' c0 (by decide)]
                dsimp only
                rw [peek_after_snoc]
                rfl
              · rw [if_neg hq6] at h
                by_cases hq7 : c = '>'
                · rw [if_pos hq7] at h
                  rw [Option.some.injEq] at h
                  subst h
                  subst hq7
                  rw [Lexer.nextToken, LState_advance pre '>' c0 (by decide)]
                  dsimp only
                  rw [peek_after_snoc]
                  rfl
                · rw [if_neg hq7] at h
                  by_cases hq8 : c = '<'
                  · rw [if_pos hq8] at h
                    rw [Option.some.injEq] at h
                    subst h
                    subst hq8
                    rw [Lexer.nextToken, LState_advance pre '<' c0 (by decide)]
                    dsimp only
                    rw [peek_after_snoc]
                    rfl
                  · rw [if_neg hq8] at h
                    by_cases hq9 : c = '&'
                    · rw [if_pos hq9] at h
                      rw [Option.some.injEq] at h
                      subst h
                      subst hq9
                      rw [Lexer.nextToken, LState_advance pre '&' c0 (by decide)]
                      dsimp only
                      rw [peek_after_snoc]
                      rfl
                    · rw [if_neg hq9] at h
                      by_cases hq10 : c = '|'
                      · rw [if_pos hq10] at h
                        rw [Option.some.injEq] at h
                        subst h
                        subst hq10
                        rw [Lexer.nextToken, LState_advance pre '|' c0 (by decide)]
                        dsimp only
                        rw [peek_after_snoc]
                        rfl
                      · rw [if_neg hq10] at h
                        by_cases hq11 : c = ':'
                        · rw [if_pos hq11] at h
                          rw [Option.some.injEq] at h
                          subst h
                          subst hq11
                          rw [Lexer.nextToken, LState_advance pre ':' c0 (by decide)]
                          dsimp only
                          rfl
                        · rw [if_neg hq11] at h
                          by_cases hq12 : c = ','
                          · rw [if_pos hq12] at h
                            rw [Option.some.injEq] at h
                            subst h
                            subst hq12
                            rw [Lexer.nextToken, LState_advance pre ',' c0 (by decide)]
                            dsimp only
                            rfl
                          · rw [if_neg hq12] at h
                            by_cases hq13 : c = '.'
                            · rw [if_pos hq13] at h
                              rw [Option.some.injEq] at h
                              subst h
                              subst hq13
                              rw [Lexer.nextToken, LState_advance pre '.' c0 (by decide)]
                              dsimp only
                              rfl
                            · rw [if_neg hq13] at h
                              by_cases hq14 : c = '{'
                              · rw [if_pos hq14] at h
                                rw [Option.some.injEq] at h
                                subst h
                                subst hq14
                                rw [Lexer.nextToken, LState_advance pre '{' c0 (by decide)]
                                dsimp only
                                rfl
                              · rw [if_neg hq14] at h
                                by_cases hq15 : c = '['
                                · rw [if_pos hq15] at h
                                  rw [Option.some.injEq] at h
                                  subst h
                                  subst hq15
                                  rw [Lexer.nextToken, LState_advance pre '[' c0 (by decide)]
                                  dsimp only
                                  rfl
                                · rw [if_neg hq15] at h
                                  by_cases hq16 : c = '('
                                  · rw [if_pos hq16] at h
                                    rw [Option.some.injEq] at h
                                    subst h
                                    subst hq16
                                    rw [Lexer.nextToken, LState_advance pre '(' c0 (by decide)]
                                    dsimp only
                                    rfl
                                  · rw [if_neg hq16] at h
                                    by_cases hq17 : c = '}'
                                    · rw [if_pos hq17] at h
                                      rw [Option.some.injEq] at h
                                      subst h
                                      subst hq17
                                      rw [Lexer.nextToken, LState_advance pre '}' c0 (by decide)]
                                      dsimp only
                                      rfl
                                    · rw [if_neg hq17] at h
                                      by_cases hq18 : c = ']'
                                      · rw [if_pos hq18] at h
                                        rw [Option.some.injEq] at h
                                        subst h
                                        subst hq18
                                        rw [Lexer.nextToken, LState_advance pre ']' c0 (by decide)]
                                        dsimp only
                                        rfl
                                      · rw [if_neg hq18] at h
                                        by_cases hq19 : c = ')'
                                        · rw [if_pos hq19] at h
                                          rw [Option.some.injEq] at h
                                          subst h
                                          subst hq19
                                          rw [Lexer.nextToken, LState_advance pre ')' c0 (by decide)]
                                          dsimp only
                                          rfl
                                        · rw [if_neg hq19] at h
                                          by_cases hq20 : c = ';'
                                          · rw [if_pos hq20] at h
                                            rw [Option.some.injEq] at h
                                            subst h
                                            subst hq20
                                            rw [Lexer.nextToken, LState_advance pre ';' c0 (by decide)]
                                            dsimp only
                                            rfl
                                          · rw [if_neg hq20] at h
                                            by_cases hq21 : c = '\x27'
                                            · rw [if_pos hq21] at h
                                              exact Option.noConfusion h
                                            · rw [if_neg hq21] at h
                                              by_cases hq22 : c = '"'
                                              · rw [if_pos hq22] at h
                                                rw [Option.some.injEq] at h
                                                subst h
                                                subst hq22
                                                rw [Lexer.nextToken, LState_advance pre '"' c0 (by decide)]
                                                dsimp only
                                                rw [handleString_lastChar pre '"' c0]
                                                rfl
                                              · rw [if_neg hq22] at h
                                                by_cases hq23 : isNumericChar c = true
                                                · rw [if_pos hq23] at h
                                                  rw [Option.some.injEq] at h
                                                  subst h
                                                  have hnl : c ≠ '\n' := by
                                                    intro hcc
                                                    rw [hcc] at hq23
                                                    exact absurd hq23 (by decide)
                                                  rw [Lexer.nextToken, LState_advance pre c c0 hnl]
                                                  dsimp only
                                                  rw [if_neg hq0, if_neg hq1, if_neg hq2, if_neg hq3, if_neg hq4, if_neg hq5, if_neg hq6, if_neg hq7, if_neg hq8, if_neg hq9, if_neg hq10, if_neg hq11, if_neg hq12, if_neg hq13, if_neg hq14, if_neg hq15, if_neg hq16, if_neg hq17, if_neg hq18, if_neg hq19, if_neg hq20, if_neg hq21, if_neg hq22, if_pos hq23]
                                                  rw [handleNumber_lastChar pre c c0 hq23 hq0]
                                                  rfl
                                                · rw [if_neg hq23] at h
                                                  by_cases hq24 : (isAlphanumericChar c || decide (c = '_')) = true
                                                  · rw [if_pos hq24] at h
                                                    rw [Option.some.injEq] at h
                                                    subst h
                                                    have hnl : c ≠ '\n' := by
                                                      intro hcc
                                                      rw [hcc] at hq24
                                                      exact absurd hq24 (by decide)
                                                    rw [Lexer.nextToken, LState_advance pre c c0 hnl]
                                                    dsimp only
                                                    rw [if_neg hq0, if_neg hq1, if_neg hq2, if_neg hq3, if_neg hq4, if_neg hq5, if_neg hq6, if_neg hq7, if_neg hq8, if_neg hq9, if_neg hq10, if_neg hq11, if_neg hq12, if_neg hq13, if_neg hq14, if_neg hq15, if_neg hq16, if_neg hq17, if_neg hq18, if_neg hq19, if_neg hq20, if_neg hq21, if_neg hq22, if_neg hq23, if_pos hq24]
                                                    rw [handleIdentifier_lastChar pre c c0]
                                                    rfl
                                                  · rw [if_neg hq24] at h
                                                    exact Option.noConfusion h

/-- Tokenizing from a last-character state whose character produces a token:
the loop emits exactly that token and stops at the following `Eof`. -/
theorem tokenizeLoop_lastChar_some (pre : List Char) (c : Char)
    (c0 fuel : Nat) {ty : TokenType} (h : singleTok c = some ty) :
    tokenizeLoop (fuel + 2) (LState pre c c0) =
      .results [.ok { ttype := ty, line := 1, col := c0 + 1 }] := by
  rw [tokenizeLoop]
  have hfb : (LState pre c c0).fuelBound = (pre.length + 1) + 1 := by
    simp [LState, Lexer.fuelBound]
  rw [hfb]
  rw [nextToken_lastChar_some pre c c0 (pre.length + 1) h]
  dsimp only
  rw [if_neg (singleTok_ne_eof h).1]
  rw [tokenizeLoop_at_end _ fuel (by simp)]

/-- Tokenizing from a last-character state whose character does not produce
a token: the loop yields either nothing (newline and whitespace restarts)
or exactly one error (bad character-literal start, unknown character). -/
theorem tokenizeLoop_lastChar_none (pre : List Char) (c : Char)
    (c0 fuel : Nat) (h : singleTok c = none) :
    tokenizeLoop (fuel + 2) (LState pre c c0) = .results [] ∨
    ∃ e, tokenizeLoop (fuel + 2) (LState pre c c0) =
      .results [.error e] := by
  unfold singleTok at h
  have hfb : (LState pre c c0).fuelBound = (pre.length + 1) + 1 := by
    simp [LState, Lexer.fuelBound]
  by_cases hq0 : c = '+'
  · rw [if_pos hq0] at h
    exact Option.noConfusion h
  · rw [if_neg hq0] at h
    by_cases hq1 : c = '-'
    · rw [if_pos hq1] at h
      exact Option.noConfusion h
    · rw [if_neg hq1] at h
      by_cases hq2 : c = '*'
      · rw [if_pos hq2] at h
        exact Option.noConfusion h
      · rw [if_neg hq2] at h
        by_cases hq3 : c = '/'
        · rw [if_pos hq3] at h
          exact Option.noConfusion h
        · rw [if_neg hq3] at h
          by_cases hq4 : c = '%'
          · rw [if_pos hq4] at h
            exact Option.noConfusion h
          · rw [if_neg hq4] at h
            by_cases hq5 : c = '!'
            · rw [if_pos hq5] at h
              exact Option.noConfusion h
            · rw [if_neg hq5] at h
              by_cases hq6 : c = '='
              · rw [if_pos hq6] at h
                exact Option.noConfusion h
              · rw [if_neg hq6] at h
                by_cases hq7 : c = '>'
                · rw [if_pos hq7] at h
                  exact Option.noConfusion h
                · rw [if_neg hq7] at h
                  by_cases hq8 : c = '<'
                  · rw [if_pos hq8] at h
                    exact Option.noConfusion h
                  · rw [if_neg hq8] at h
                    by_cases hq9 : c = '&'
                    · rw [if_pos hq9] at h
                      exact Option.noConfusion h
                    · rw [if_neg hq9] at h
                      by_cases hq10 : c = '|'
                      · rw [if_pos hq10] at h
                        exact Option.noConfusion h
                      · rw [if_neg hq10] at h
                        by_cases hq11 : c = ':'
                        · rw [if_pos hq11] at h
                          exact Option.noConfusion h
                        · rw [if_neg hq11] at h
                          by_cases hq12 : c = ','
                          · rw [if_pos hq12] at h
                            exact Option.noConfusion h
                          · rw [if_neg hq12] at h
                            by_cases hq13 : c = '.'
                            · rw [if_pos hq13] at h
                              exact Option.noConfusion h
                            · rw [if_neg hq13] at h
                              by_cases hq14 : c = '{'
                              · rw [if_pos hq14] at h
                                exact Option.noConfusion h
                              · rw [if_neg hq14] at h
                                by_cases hq15 : c = '['
                                · rw [if_pos hq15] at h
                                  exact Option.noConfusion h
                                · rw [if_neg hq15] at h
                                  by_cases hq16 : c = '('
                                  · rw [if_pos hq16] at h
                                    exact Option.noConfusion h
                                  · rw [if_neg hq16] at h
                                    by_cases hq17 : c = '}'
                                    · rw [if_pos hq17] at h
                                      exact Option.noConfusion h
                                    · rw [if_neg hq17] at h
                                      by_cases hq18 : c = ']'
                                      · rw [if_pos hq18] at h
                                        exact Option.noConfusion h
                                      · rw [if_neg hq18] at h
                                        by_cases hq19 : c = ')'
                                        · rw [if_pos hq19] at h
                                          exact Option.noConfusion h
                                        · rw [if_neg hq19] at h
                                          by_cases hq20 : c = ';'
                                          · rw [if_pos hq20] at h
                                            exact Option.noConfusion h
                                          · rw [if_neg hq20] at h
                                            by_cases hq21 : c = '\x27'
                                            · rw [if_pos hq21] at h
                                              subst hq21
                                              refine Or.inr ⟨.UnexpectedEof 1 (c0 + 1) "a character", ?_⟩
                                              have hHC : Lexer.handleChar
                                                  (Lexer.mk (Cursor.mk (pre ++ ['\x27']) (pre.length + 1))
                                                    pre.length (pre.length + 1) 1 (c0 + 1)) =
                                                  (.err (.UnexpectedEof 1 (c0 + 1) "a character"),
                                                   Lexer.mk (Cursor.mk (pre ++ ['\x27']) (pre.length + 1))
                                                     pre.length (pre.length + 1) 1 (c0 + 1)) := by
                                                unfold Lexer.handleChar
                                                rw [advance_at_end _ (by simp)]
                                              have hNT : Lexer.nextToken ((pre.length + 1) + 1)
                                                  (LState pre '\x27' c0) =
                                                  (.err (.UnexpectedEof 1 (c0 + 1) "a character"),
                                                   Lexer.mk (Cursor.mk (pre ++ ['\x27']) (pre.length + 1))
                                                     pre.length (pre.length + 1) 1 (c0 + 1)) := by
                                                rw [Lexer.nextToken, LState_advance pre '\x27' c0 (by decide)]
                                                dsimp only
                                                rw [hHC]
                                                rfl
                                              rw [tokenizeLoop, hfb, hNT]
                                              dsimp only
                                              rw [tokenizeLoop_at_end _ fuel (by simp)]
                                            · rw [if_neg hq21] at h
                                              by_cases hq22 : c = '"'
                                              · rw [if_pos hq22] at h
                                                exact Option.noConfusion h
                                              · rw [if_neg hq22] at h
                                                by_cases hq23 : isNumericChar c = true
                                                · rw [if_pos hq23] at h
                                                  exact Option.noConfusion h
                                                · rw [if_neg hq23] at h
                                                  by_cases hq24 : (isAlphanumericChar c || decide (c = '_')) = true
                                                  · rw [if_pos hq24] at h
                                                    exact Option.noConfusion h
                                                  · rw [if_neg hq24] at h
                                                    by_cases hnl : c = '\n'
                                                    · subst hnl
                                                      left
                                                      have hNT : Lexer.nextToken ((pre.length + 1) + 1)
                                                          (LState pre '\n' c0) =
                                                          (.ok { ttype := .Eof, line := 2 + 1, col := 1 },
                                                           Lexer.mk (Cursor.mk (pre ++ ['\n']) (pre.length + 1))
                                                             0 0 (2 + 1) 1) := by
                                                        rw [Lexer.nextToken, LState_advance_nl pre c0]
                                                        dsimp only
                                                        rw [nextToken_at_end _ pre.length (by simp)]
                                                        rfl
                                                      rw [tokenizeLoop, hfb, hNT]
                                                      dsimp only
                                                      rw [if_pos rfl]
                                                    · by_cases hws : isWhitespaceChar c = true
                                                      · left
                                                        have hNT : Lexer.nextToken ((pre.length + 1) + 1)
                                                            (LState pre c c0) =
                                                            (.ok { ttype := .Eof, line := 1, col := c0 + 1 },
                                                             Lexer.mk (Cursor.mk (pre ++ [c]) (pre.length + 1))
                                                               (pre.length + 1) (pre.length + 1) 1 (c0 + 1)) := by
                                                          rw [Lexer.nextToken, LState_advance pre c c0 hnl]
                                                          dsimp only
                                                          rw [if_neg hq0, if_neg hq1, if_neg hq2, if_neg hq3, if_neg hq4, if_neg hq5, if_neg hq6, if_neg hq7, if_neg hq8, if_neg hq9, if_neg hq10, if_neg hq11, if_neg hq12, if_neg hq13, if_neg hq14, if_neg hq15, if_neg hq16, if_neg hq17, if_neg hq18, if_neg hq19, if_neg hq20, if_neg hq21, if_neg hq22, if_neg hq23, if_neg hq24, if_neg hnl, if_pos hws]
                                                          rw [nextToken_at_end _ pre.length (by simp)]
                                                        rw [tokenizeLoop, hfb, hNT]
                                                        dsimp only
                                                        rw [if_pos rfl]
                                                      · refine Or.inr ⟨.UnknownCharacter 1 (c0 + 1) c, ?_⟩
                                                        have hNT : Lexer.nextToken ((pre.length + 1) + 1)
                                                            (LState pre c c0) =
                                                            (.err (.UnknownCharacter 1 (c0 + 1) c),
                                                             Lexer.mk (Cursor.mk (pre ++ [c]) (pre.length + 1))
                                                               pre.length (pre.length + 1) 1 (c0 + 1)) := by
                                                          rw [Lexer.nextToken, LState_advance pre c c0 hnl]
                                                          dsimp only
                                                          rw [if_neg hq0, if_neg hq1, if_neg hq2, if_neg hq3, if_neg hq4, if_neg hq5, if_neg hq6, if_neg hq7, if_neg hq8, if_neg hq9, if_neg hq10, if_neg hq11, if_neg hq12, if_neg hq13, if_neg hq14, if_neg hq15, if_neg hq16, if_neg hq17, if_neg hq18, if_neg hq19, if_neg hq20, if_neg hq21, if_neg hq22, if_neg hq23, if_neg hq24, if_neg hnl, if_neg hws]
                                                        rw [tokenizeLoop, hfb, hNT]
                                                        dsimp only
                                                        rw [tokenizeLoop_at_end _ fuel (by simp)]

/-! ### The dispatch rows of `next_token` for operator characters -/

theorem nextToken_dispatch_plus (l l1 : Lexer) (fuel : Nat)
    (hadv : l.advance = (some '+', l1)) :
    Lexer.nextToken (fuel + 1) l =
      (match l1.source.peekNth 0 with
       | some c =>
         if c = '=' then ((l1.advance).2).finishToken .AddEqual else l1.finishToken .Add
       | none => l1.finishToken .Add) := by
  rw [Lexer.nextToken, hadv]
  rfl

theorem nextToken_dispatch_minus (l l1 : Lexer) (fuel : Nat)
    (hadv : l.advance = (some '-', l1)) :
    Lexer.nextToken (fuel + 1) l =
      (match l1.source.peekNth 0 with
       | some c =>
         if c = '=' then ((l1.advance).2).finishToken .LessEqual else if c = '>' then ((l1.advance).2).finishToken .Arrow else l1.finishToken .Less
       | none => l1.finishToken .Less) := by
  rw [Lexer.nextToken, hadv]
  rfl

theorem nextToken_dispatch_star (l l1 : Lexer) (fuel : Nat)
    (hadv : l.advance = (some '*', l1)) :
    Lexer.nextToken (fuel + 1) l =
      (match l1.source.peekNth 0 with
       | some c =>
         if c = '=' then ((l1.advance).2).finishToken .StarEqual else l1.finishToken .Star
       | none => l1.finishToken .Star) := by
  rw [Lexer.nextToken, hadv]
  rfl

theorem nextToken_dispatch_percent (l l1 : Lexer) (fuel : Nat)
    (hadv : l.advance = (some '%', l1)) :
    Lexer.nextToken (fuel + 1) l =
      (match l1.source.peekNth 0 with
       | some c =>
         if c = '=' then ((l1.advance).2).finishToken .ModuloEqual else l1.finishToken .Modulo
       | none => l1.finishToken .Modulo) := by
  rw [Lexer.nextToken, hadv]
  rfl

theorem nextToken_dispatch_bang (l l1 : Lexer) (fuel : Nat)
    (hadv : l.advance = (some '!', l1)) :
    Lexer.nextToken (fuel + 1) l =
      (match l1.source.peekNth 0 with
       | some c =>
         if c = '=' then ((l1.advance).2).finishToken .BangEqual else l1.finishToken .Bang
       | none => l1.finishToken .Bang) := by
  rw [Lexer.nextToken, hadv]
  rfl

theorem nextToken_dispatch_eq (l l1 : Lexer) (fuel : Nat)
    (hadv : l.advance = (some '=', l1)) :
    Lexer.nextToken (fuel + 1) l =
      (match l1.source.peekNth 0 with
       | some c =>
         if c = '=' then ((l1.advance).2).finishToken .EqualEqual else l1.finishToken .Equal
       | none => l1.finishToken .Equal) := by
  rw [Lexer.nextToken, hadv]
  rfl

theorem nextToken_dispatch_greater (l l1 : Lexer) (fuel : Nat)
    (hadv : l.advance = (some '>', l1)) :
    Lexer.nextToken (fuel + 1) l =
      (match l1.source.peekNth 0 with
       | some c =>
         if c = '=' then ((l1.advance).2).finishToken .GreaterEqual else l1.finishToken .Greater
       | none => l1.finishToken .Greater) := by
  rw [Lexer.nextToken, hadv]
  rfl

theorem nextToken_dispatch_less (l l1 : Lexer) (fuel : Nat)
    (hadv : l.advance = (some '<', l1)) :
    Lexer.nextToken (fuel + 1) l =
      (match l1.source.peekNth 0 with
       | some c =>
         if c = '=' then ((l1.advance).2).finishToken .LessEqual else l1.finishToken .Less
       | none => l1.finishToken .Less) := by
  rw [Lexer.nextToken, hadv]
  rfl

theorem nextToken_dispatch_slash (l l1 : Lexer) (fuel : Nat)
    (hadv : l.advance = (some '/', l1)) :
    Lexer.nextToken (fuel + 1) l =
      (match l1.source.peekNth 0 with
       | some c =>
         if c = '=' then ((l1.advance).2).finishToken .SlashEqual
         else if c = '/' then
           match l1.handleComment with
           | (.ok _, l2) => l2.finishToken .Comment
           | (.err e, l2) => (.err e, l2)
           | (.panicked m, l2) => (.panicked m, l2)
           | (.fuelOut, l2) => (.fuelOut, l2)
         else l1.finishToken .Slash
       | none => l1.finishToken .Slash) := by
  rw [Lexer.nextToken, hadv]
  rfl

/-- **C1**: in `next_token`'s `'-'` dispatch row a following `'='` is
consumed and the emitted compound token is `LessEqual`, a following `'>'`
gives `Arrow`, and a bare `'-'` (any other or no following character) emits
`Less` — exactly the tokens of the `'<'` row — and no `Minus`/`MinusEqual`
token is produced. -/
theorem minus_maps_to_less_family :
    (∀ c : Char,
      (Lexer.nextToken (Lexer.new (String.mk ['-', c])).fuelBound
          (Lexer.new (String.mk ['-', c]))).1 =
        .ok (if c = '=' then
            { ttype := TokenType.LessEqual, line := 1, col := 2 }
          else if c = '>' then
            { ttype := TokenType.Arrow, line := 1, col := 2 }
          else { ttype := TokenType.Less, line := 1, col := 1 })) ∧
    tokenize "-=" = .results [.ok { ttype := .LessEqual, line := 1, col := 2 }] ∧
    tokenize "<=" = .results [.ok { ttype := .LessEqual, line := 1, col := 2 }] ∧
    tokenize "-" = .results [.ok { ttype := .Less, line := 1, col := 1 }] ∧
    tokenize "<" = .results [.ok { ttype := .Less, line := 1, col := 1 }] ∧
    tokenize "->" = .results [.ok { ttype := .Arrow, line := 1, col := 2 }] := by
  refine ⟨?_, rfl, rfl, rfl, rfl, rfl⟩
  intro c
  have hadv : (Lexer.new (String.mk ['-', c])).advance =
      (some '-', Lexer.mk (Cursor.mk ['-', c] 1) 0 1 1 1) := rfl
  have hfb : (Lexer.new (String.mk ['-', c])).fuelBound = 2 + 1 := rfl
  rw [hfb, nextToken_dispatch_minus _ _ 2 hadv]
  have hpk : (Lexer.mk (Cursor.mk ['-', c] 1) 0 1 1 1).source.peekNth 0 =
      some c := rfl
  rw [hpk]
  dsimp only
  by_cases h1 : c = '='
  · subst h1
    rfl
  · rw [if_neg h1, if_neg h1]
    by_cases h2 : c = '>'
    · subst h2
      rfl
    · rw [if_neg h2, if_neg h2]
      rfl

/-- **C4**: for every single-character operator with a documented
`=`-extended two-character form (`+ * / % ! = > <`), tokenizing `<op>=`
yields exactly the one compound token, and tokenizing `<op><other>`, where
`<other>` is not a continuation character of `<op>` and produces a token
when lexed alone, yields the single-character operator token followed by a
separate token of the same kind for `<other>`. -/
theorem op_equal_compound_and_separation :
    ∀ op ∈ opsList,
      tokenize (String.mk [op, '=']) =
        .results [.ok { ttype := compoundOpTok op, line := 1, col := 2 }] ∧
      ∀ (other : Char) (t : Token), other ≠ '=' →
        (op = '/' → other ≠ '/') →
        tokenize (String.mk [other]) = .results [Except.ok t] →
        tokenize (String.mk [op, other]) =
          .results
            [Except.ok { ttype := singleOpTok op, line := 1, col := 1 },
             Except.ok { ttype := t.ttype, line := 1, col := 2 }] := by
  intro op hop
  fin_cases hop
  · refine ⟨rfl, ?_⟩
    intro other t hne hsl htok
    cases hst : singleTok other with
    | none =>
      exfalso
      rcases tokenizeLoop_lastChar_none [] other 0 0 hst with h0 | ⟨e, h0⟩
      · have h1 : tokenize (String.mk [other]) = .results [] := h0
        rw [h1] at htok
        injection htok with h2
        exact List.noConfusion h2
      · have h1 : tokenize (String.mk [other]) = .results [.error e] := h0
        rw [h1] at htok
        injection htok with h2
        injection h2 with h3 h4
        exact Except.noConfusion h3
    | some ty =>
      have hA : tokenize (String.mk [other]) =
          .results [.ok { ttype := ty, line := 1, col := 1 }] :=
        tokenizeLoop_lastChar_some [] other 0 0 hst
      rw [hA] at htok
      injection htok with h2
      injection h2 with h3 h4
      injection h3 with h3
      subst h3
      have hadv : (Lexer.new (String.mk ['+', other])).advance =
          (some '+', Lexer.mk (Cursor.mk ['+', other] 1) 0 1 1 1) := rfl
      have hT : tokenize (String.mk ['+', other]) =
          tokenizeLoop (2 + 1) (Lexer.new (String.mk ['+', other])) := rfl
      rw [hT, tokenizeLoop]
      have hfb : (Lexer.new (String.mk ['+', other])).fuelBound = 2 + 1 := rfl
      rw [hfb, nextToken_dispatch_plus _ _ 2 hadv]
      have hpk : (Lexer.mk (Cursor.mk ['+', other] 1) 0 1 1 1).source.peekNth 0 =
          some other := rfl
      rw [hpk]
      dsimp only
      rw [if_neg hne]
      dsimp only [Lexer.finishToken]
      rw [if_neg (by decide : ¬(TokenType.Add = TokenType.Eof))]
      have hrec : tokenizeLoop 2 (Lexer.mk (Cursor.mk ['+', other] 1) 1 1 1 1) =
          .results [.ok { ttype := ty, line := 1, col := 2 }] :=
        tokenizeLoop_lastChar_some ['+'] other 1 0 hst
      rw [hrec]
      rfl
  · refine ⟨rfl, ?_⟩
    intro other t hne hsl htok
    cases hst : singleTok other with
    | none =>
      exfalso
      rcases tokenizeLoop_lastChar_none [] other 0 0 hst with h0 | ⟨e, h0⟩
      · have h1 : tokenize (String.mk [other]) = .results [] := h0
        rw [h1] at htok
        injection htok with h2
        exact List.noConfusion h2
      · have h1 : tokenize (String.mk [other]) = .results [.error e] := h0
        rw [h1] at htok
        injection htok with h2
        injection h2 with h3 h4
        exact Except.noConfusion h3
    | some ty =>
      have hA : tokenize (String.mk [other]) =
          .results [.ok { ttype := ty, line := 1, col := 1 }] :=
        tokenizeLoop_lastChar_some [] other 0 0 hst
      rw [hA] at htok
      injection htok with h2
      injection h2 with h3 h4
      injection h3 with h3
      subst h3
      have hadv : (Lexer.new (String.mk ['*', other])).advance =
          (some '*', Lexer.mk (Cursor.mk ['*', other] 1) 0 1 1 1) := rfl
      have hT : tokenize (String.mk ['*', other]) =
          tokenizeLoop (2 + 1) (Lexer.new (String.mk ['*', other])) := rfl
      rw [hT, tokenizeLoop]
      have hfb : (Lexer.new (String.mk ['*', other])).fuelBound = 2 + 1 := rfl
      rw [hfb, nextToken_dispatch_star _ _ 2 hadv]
      have hpk : (Lexer.mk (Cursor.mk ['*', other] 1) 0 1 1 1).source.peekNth 0 =
          some other := rfl
      rw [hpk]
      dsimp only
      rw [if_neg hne]
      dsimp only [Lexer.finishToken]
      rw [if_neg (by decide : ¬(TokenType.Star = TokenType.Eof))]
      have hrec : tokenizeLoop 2 (Lexer.mk (Cursor.mk ['*', other] 1) 1 1 1 1) =
          .results [.ok { ttype := ty, line := 1, col := 2 }] :=
        tokenizeLoop_lastChar_some ['*'] other 1 0 hst
      rw [hrec]
      rfl
  · refine ⟨rfl, ?_⟩
    intro other t hne hsl htok
    cases hst : singleTok other with
    | none =>
      exfalso
      rcases tokenizeLoop_lastChar_none [] other 0 0 hst with h0 | ⟨e, h0⟩
      · have h1 : tokenize (String.mk [other]) = .results [] := h0
        rw [h1] at htok
        injection htok with h2
        exact List.noConfusion h2
      · have h1 : tokenize (String.mk [other]) = .results [.error e] := h0
        rw [h1] at htok
        injection htok with h2
        injection h2 with h3 h4
        exact Except.noConfusion h3
    | some ty =>
      have hA : tokenize (String.mk [other]) =
          .results [.ok { ttype := ty, line := 1, col := 1 }] :=
        tokenizeLoop_lastChar_some [] other 0 0 hst
      rw [hA] at htok
      injection htok with h2
      injection h2 with h3 h4
      injection h3 with h3
      subst h3
      have hadv : (Lexer.new (String.mk ['/', other])).advance =
          (some '/', Lexer.mk (Cursor.mk ['/', other] 1) 0 1 1 1) := rfl
      have hT : tokenize (String.mk ['/', other]) =
          tokenizeLoop (2 + 1) (Lexer.new (String.mk ['/', other])) := rfl
      rw [hT, tokenizeLoop]
      have hfb : (Lexer.new (String.mk ['/', other])).fuelBound = 2 + 1 := rfl
      rw [hfb, nextToken_dispatch_slash _ _ 2 hadv]
      have hpk : (Lexer.mk (Cursor.mk ['/', other] 1) 0 1 1 1).source.peekNth 0 =
          some other := rfl
      rw [hpk]
      dsimp only
      rw [if_neg hne]
      rw [if_neg (hsl rfl)]
      dsimp only [Lexer.finishToken]
      rw [if_neg (by decide : ¬(TokenType.Slash = TokenType.Eof))]
      have hrec : tokenizeLoop 2 (Lexer.mk (Cursor.mk ['/', other] 1) 1 1 1 1) =
          .results [.ok { ttype := ty, line := 1, col := 2 }] :=
        tokenizeLoop_lastChar_some ['/'] other 1 0 hst
      rw [hrec]
      rfl
  · refine ⟨rfl, ?_⟩
    intro other t hne hsl htok
    cases hst : singleTok other with
    | none =>
      exfalso
      rcases tokenizeLoop_lastChar_none [] other 0 0 hst with h0 | ⟨e, h0⟩
      · have h1 : tokenize (String.mk [other]) = .results [] := h0
        rw [h1] at htok
        injection htok with h2
        exact List.noConfusion h2
      · have h1 : tokenize (String.mk [other]) = .results [.error e] := h0
        rw [h1] at htok
        injection htok with h2
        injection h2 with h3 h4
        exact Except.noConfusion h3
    | some ty =>
      have hA : tokenize (String.mk [other]) =
          .results [.ok { ttype := ty, line := 1, col := 1 }] :=
        tokenizeLoop_lastChar_some [] other 0 0 hst
      rw [hA] at htok
      injection htok with h2
      injection h2 with h3 h4
      injection h3 with h3
      subst h3
      have hadv : (Lexer.new (String.mk ['%', other])).advance =
          (some '%', Lexer.mk (Cursor.mk ['%', other] 1) 0 1 1 1) := rfl
      have hT : tokenize (String.mk ['%', other]) =
          tokenizeLoop (2 + 1) (Lexer.new (String.mk ['%', other])) := rfl
      rw [hT, tokenizeLoop]
      have hfb : (Lexer.new (String.mk ['%', other])).fuelBound = 2 + 1 := rfl
      rw [hfb, nextToken_dispatch_percent _ _ 2 hadv]
      have hpk : (Lexer.mk (Cursor.mk ['%', other] 1) 0 1 1 1).source.peekNth 0 =
          some other := rfl
      rw [hpk]
      dsimp only
      rw [if_neg hne]
      dsimp only [Lexer.finishToken]
      rw [if_neg (by decide : ¬(TokenType.Modulo = TokenType.Eof))]
      have hrec : tokenizeLoop 2 (Lexer.mk (Cursor.mk ['%', other] 1) 1 1 1 1) =
          .results [.ok { ttype := ty, line := 1, col := 2 }] :=
        tokenizeLoop_lastChar_some ['%'] other 1 0 hst
      rw [hrec]
      rfl
  · refine ⟨rfl, ?_⟩
    intro other t hne hsl htok
    cases hst : singleTok other with
    | none =>
      exfalso
      rcases tokenizeLoop_lastChar_none [] other 0 0 hst with h0 | ⟨e, h0⟩
      · have h1 : tokenize (String.mk [other]) = .results [] := h0
        rw [h1] at htok
        injection htok with h2
        exact List.noConfusion h2
      · have h1 : tokenize (String.mk [other]) = .results [.error e] := h0
        rw [h1] at htok
        injection htok with h2
        injection h2 with h3 h4
        exact Except.noConfusion h3
    | some ty =>
      have hA : tokenize (String.mk [other]) =
          .results [.ok { ttype := ty, line := 1, col := 1 }] :=
        tokenizeLoop_lastChar_some [] other 0 0 hst
      rw [hA] at htok
      injection htok with h2
      injection h2 with h3 h4
      injection h3 with h3
      subst h3
      have hadv : (Lexer.new (String.mk ['!', other])).advance =
          (some '!', Lexer.mk (Cursor.mk ['!', other] 1) 0 1 1 1) := rfl
      have hT : tokenize (String.mk ['!', other]) =
          tokenizeLoop (2 + 1) (Lexer.new (String.mk ['!', other])) := rfl
      rw [hT, tokenizeLoop]
      have hfb : (Lexer.new (String.mk ['!', other])).fuelBound = 2 + 1 := rfl
      rw [hfb, nextToken_dispatch_bang _ _ 2 hadv]
      have hpk : (Lexer.mk (Cursor.mk ['!', other] 1) 0 1 1 1).source.peekNth 0 =
          some other := rfl
      rw [hpk]
      dsimp only
      rw [if_neg hne]
      dsimp only [Lexer.finishToken]
      rw [if_neg (by decide : ¬(TokenType.Bang = TokenType.Eof))]
      have hrec : tokenizeLoop 2 (Lexer.mk (Cursor.mk ['!', other] 1) 1 1 1 1) =
          .results [.ok { ttype := ty, line := 1, col := 2 }] :=
        tokenizeLoop_lastChar_some ['!'] other 1 0 hst
      rw [hrec]
      rfl
  · refine ⟨rfl, ?_⟩
    intro other t hne hsl htok
    cases hst : singleTok other with
    | none =>
      exfalso
      rcases tokenizeLoop_lastChar_none [] other 0 0 hst with h0 | ⟨e, h0⟩
      · have h1 : tokenize (String.mk [other]) = .results [] := h0
        rw [h1] at htok
        injection htok with h2
        exact List.noConfusion h2
      · have h1 : tokenize (String.mk [other]) = .results [.error e] := h0
        rw [h1] at htok
        injection htok with h2
        injection h2 with h3 h4
        exact Except.noConfusion h3
    | some ty =>
      have hA : tokenize (String.mk [other]) =
          .results [.ok { ttype := ty, line := 1, col := 1 }] :=
        tokenizeLoop_lastChar_some [] other 0 0 hst
      rw [hA] at htok
      injection htok with h2
      injection h2 with h3 h4
      injection h3 with h3
      subst h3
      have hadv : (Lexer.new (String.mk ['=', other])).advance =
          (some '=', Lexer.mk (Cursor.mk ['=', other] 1) 0 1 1 1) := rfl
      have hT : tokenize (String.mk ['=', other]) =
          tokenizeLoop (2 + 1) (Lexer.new (String.mk ['=', other])) := rfl
      rw [hT, tokenizeLoop]
      have hfb : (Lexer.new (String.mk ['=', other])).fuelBound = 2 + 1 := rfl
      rw [hfb, nextToken_dispatch_eq _ _ 2 hadv]
      have hpk : (Lexer.mk (Cursor.mk ['=', other] 1) 0 1 1 1).source.peekNth 0 =
          some other := rfl
      rw [hpk]
      dsimp only
      rw [if_neg hne]
      dsimp only [Lexer.finishToken]
      rw [if_neg (by decide : ¬(TokenType.Equal = TokenType.Eof))]
      have hrec : tokenizeLoop 2 (Lexer.mk (Cursor.mk ['=', other] 1) 1 1 1 1) =
          .results [.ok { ttype := ty, line := 1, col := 2 }] :=
        tokenizeLoop_lastChar_some ['='] other 1 0 hst
      rw [hrec]
      rfl
  · refine ⟨rfl, ?_⟩
    intro other t hne hsl htok
    cases hst : singleTok other with
    | none =>
      exfalso
      rcases tokenizeLoop_lastChar_none [] other 0 0 hst with h0 | ⟨e, h0⟩
      · have h1 : tokenize (String.mk [other]) = .results [] := h0
        rw [h1] at htok
        injection htok with h2
        exact List.noConfusion h2
      · have h1 : tokenize (String.mk [other]) = .results [.error e] := h0
        rw [h1] at htok
        injection htok with h2
        injection h2 with h3 h4
        exact Except.noConfusion h3
    | some ty =>
      have hA : tokenize (String.mk [other]) =
          .results [.ok { ttype := ty, line := 1, col := 1 }] :=
        tokenizeLoop_lastChar_some [] other 0 0 hst
      rw [hA] at htok
      injection htok with h2
      injection h2 with h3 h4
      injection h3 with h3
      subst h3
      have hadv : (Lexer.new (String.mk ['>', other])).advance =
          (some '>', Lexer.mk (Cursor.mk ['>', other] 1) 0 1 1 1) := rfl
      have hT : tokenize (String.mk ['>', other]) =
          tokenizeLoop (2 + 1) (Lexer.new (String.mk ['>', other])) := rfl
      rw [hT, tokenizeLoop]
      have hfb : (Lexer.new (String.mk ['>', other])).fuelBound = 2 + 1 := rfl
      rw [hfb, nextToken_dispatch_greater _ _ 2 hadv]
      have hpk : (Lexer.mk (Cursor.mk ['>', other] 1) 0 1 1 1).source.peekNth 0 =
          some other := rfl
      rw [hpk]
      dsimp only
      rw [if_neg hne]
      dsimp only [Lexer.finishToken]
      rw [if_neg (by decide : ¬(TokenType.Greater = TokenType.Eof))]
      have hrec : tokenizeLoop 2 (Lexer.mk (Cursor.mk ['>', other] 1) 1 1 1 1) =
          .results [.ok { ttype := ty, line := 1, col := 2 }] :=
        tokenizeLoop_lastChar_some ['>'] other 1 0 hst
      rw [hrec]
      rfl
  · refine ⟨rfl, ?_⟩
    intro other t hne hsl htok
    cases hst : singleTok other with
    | none =>
      exfalso
      rcases tokenizeLoop_lastChar_none [] other 0 0 hst with h0 | ⟨e, h0⟩
      · have h1 : tokenize (String.mk [other]) = .results [] := h0
        rw [h1] at htok
        injection htok with h2
        exact List.noConfusion h2
      · have h1 : tokenize (String.mk [other]) = .results [.error e] := h0
        rw [h1] at htok
        injection htok with h2
        injection h2 with h3 h4
        exact Except.noConfusion h3
    | some ty =>
      have hA : tokenize (String.mk [other]) =
          .results [.ok { ttype := ty, line := 1, col := 1 }] :=
        tokenizeLoop_lastChar_some [] other 0 0 hst
      rw [hA] at htok
      injection htok with h2
      injection h2 with h3 h4
      injection h3 with h3
      subst h3
      have hadv : (Lexer.new (String.mk ['<', other])).advance =
          (some '<', Lexer.mk (Cursor.mk ['<', other] 1) 0 1 1 1) := rfl
      have hT : tokenize (String.mk ['<', other]) =
          tokenizeLoop (2 + 1) (Lexer.new (String.mk ['<', other])) := rfl
      rw [hT, tokenizeLoop]
      have hfb : (Lexer.new (String.mk ['<', other])).fuelBound = 2 + 1 := rfl
      rw [hfb, nextToken_dispatch_less _ _ 2 hadv]
      have hpk : (Lexer.mk (Cursor.mk ['<', other] 1) 0 1 1 1).source.peekNth 0 =
          some other := rfl
      rw [hpk]
      dsimp only
      rw [if_neg hne]
      dsimp only [Lexer.finishToken]
      rw [if_neg (by decide : ¬(TokenType.Less = TokenType.Eof))]
      have hrec : tokenizeLoop 2 (Lexer.mk (Cursor.mk ['<', other] 1) 1 1 1 1) =
          .results [.ok { ttype := ty, line := 1, col := 2 }] :=
        tokenizeLoop_lastChar_some ['<'] other 1 0 hst
      rw [hrec]
      rfl

theorem ws_not_digit {c : Char} (h : isWhitespaceChar c = true) :
    ¬(isNumericChar c = true) := by
  intro hcon
  simp only [isNumericChar, Bool.and_eq_true, decide_eq_true_eq] at hcon
  simp only [isWhitespaceChar, Bool.or_eq_true, Bool.and_eq_true,
    decide_eq_true_eq] at h
  omega

theorem ws_not_alnum {c : Char} (h : isWhitespaceChar c = true) :
    ¬((isAlphanumericChar c || decide (c = '_')) = true) := by
  intro hcon
  simp only [isAlphanumericChar, isAlphaChar, isNumericChar, Bool.or_eq_true,
    Bool.and_eq_true, decide_eq_true_eq] at hcon
  rcases hcon with ((⟨h1, h2⟩ | ⟨h1, h2⟩) | ⟨h1, h2⟩) | h1
  · simp only [isWhitespaceChar, Bool.or_eq_true, Bool.and_eq_true,
      decide_eq_true_eq] at h
    omega
  · simp only [isWhitespaceChar, Bool.or_eq_true, Bool.and_eq_true,
      decide_eq_true_eq] at h
    omega
  · simp only [isWhitespaceChar, Bool.or_eq_true, Bool.and_eq_true,
      decide_eq_true_eq] at h
    omega
  · subst h1
    exact absurd h (by decide)

/-- On an input whose characters are all whitespace, one `next_token` call
skips everything and yields the `Eof` marker without emitting anything. -/
theorem nextToken_ws : ∀ (fuel : Nat) (l : Lexer),
    (∀ c ∈ l.source.chars, isWhitespaceChar c = true) →
    l.source.chars.length - l.source.pos < fuel →
    ∃ l2 : Lexer, Lexer.nextToken fuel l =
      (.ok { ttype := .Eof, line := l2.line, col := l2.col }, l2) := by
  intro fuel
  induction fuel with
  | zero => intro l hws h; exact absurd h (by omega)
  | succ fuel ih =>
    intro l hws hfuel
    rw [Lexer.nextToken]
    cases hadv : l.advance with
    | mk o l1 =>
      cases o with
      | none => exact ⟨l1, rfl⟩
      | some ch =>
        obtain ⟨hp1, hc1, hlt, hat⟩ := advance_some hadv
        have hw : isWhitespaceChar ch = true := hws ch (charAt?_mem hat)
        have hlen : l1.source.chars.length = l.source.chars.length := by
          rw [hc1]
        have hws1 : ∀ c ∈ l1.source.chars, isWhitespaceChar c = true := by
          rw [hc1]; exact hws
        have h2 : l1.source.chars.length - l1.source.pos < fuel := by
          omega
        dsimp only
        rw [if_neg (by intro hcc; rw [hcc] at hw; exact absurd hw (by decide) : ¬(ch = '+')),
          if_neg (by intro hcc; rw [hcc] at hw; exact absurd hw (by decide) : ¬(ch = '-')),
          if_neg (by intro hcc; rw [hcc] at hw; exact absurd hw (by decide) : ¬(ch = '*')),
          if_neg (by intro hcc; rw [hcc] at hw; exact absurd hw (by decide) : ¬(ch = '/')),
          if_neg (by intro hcc; rw [hcc] at hw; exact absurd hw (by decide) : ¬(ch = '%')),
          if_neg (by intro hcc; rw [hcc] at hw; exact absurd hw (by decide) : ¬(ch = '!')),
          if_neg (by intro hcc; rw [hcc] at hw; exact absurd hw (by decide) : ¬(ch = '=')),
          if_neg (by intro hcc; rw [hcc] at hw; exact absurd hw (by decide) : ¬(ch = '>')),
          if_neg (by intro hcc; rw [hcc] at hw; exact absurd hw (by decide) : ¬(ch = '<')),
          if_neg (by intro hcc; rw [hcc] at hw; exact absurd hw (by decide) : ¬(ch = '&')),
          if_neg (by intro hcc; rw [hcc] at hw; exact absurd hw (by decide) : ¬(ch = '|')),
          if_neg (by intro hcc; rw [hcc] at hw; exact absurd hw (by decide) : ¬(ch = ':')),
          if_neg (by intro hcc; rw [hcc] at hw; exact absurd hw (by decide) : ¬(ch = ',')),
          if_neg (by intro hcc; rw [hcc] at hw; exact absurd hw (by decide) : ¬(ch = '.')),
          if_neg (by intro hcc; rw [hcc] at hw; exact absurd hw (by decide) : ¬(ch = '{')),
          if_neg (by intro hcc; rw [hcc] at hw; exact absurd hw (by decide) : ¬(ch = '[')),
          if_neg (by intro hcc; rw [hcc] at hw; exact absurd hw (by decide) : ¬(ch = '(')),
          if_neg (by intro hcc; rw [hcc] at hw; exact absurd hw (by decide) : ¬(ch = '}')),
          if_neg (by intro hcc; rw [hcc] at hw; exact absurd hw (by decide) : ¬(ch = ']')),
          if_neg (by intro hcc; rw [hcc] at hw; exact absurd hw (by decide) : ¬(ch = ')')),
          if_neg (by intro hcc; rw [hcc] at hw; exact absurd hw (by decide) : ¬(ch = ';')),
          if_neg (by intro hcc; rw [hcc] at hw; exact absurd hw (by decide) : ¬(ch = '\x27')),
          if_neg (by intro hcc; rw [hcc] at hw; exact absurd hw (by decide) : ¬(ch = '"')),
          if_neg (ws_not_digit hw),
          if_neg (ws_not_alnum hw)]
        by_cases hnl : ch = '\n'
        · rw [if_pos hnl]
          exact ih _ hws1 h2
        · rw [if_neg hnl, if_pos hw]
          exact ih _ hws1 h2

/-- **C6**: for every input consisting only of whitespace characters (the
Unicode `White_Space` set, which includes newlines), `tokenize` returns an
empty sequence: no tokens and no errors. -/
theorem whitespace_only_empty :
    ∀ s : String, (∀ c ∈ s.data, isWhitespaceChar c = true) →
      tokenize s = .results [] := by
  intro s hws
  obtain ⟨l2, h⟩ := nextToken_ws (s.data.length + 1) (Lexer.new s) hws
    (by simp only [Lexer.new]; omega)
  unfold tokenize
  have hfb : (Lexer.new s).fuelBound = s.data.length + 1 := rfl
  rw [hfb, tokenizeLoop, hfb, h]
  dsimp only
  rw [if_pos rfl]

/-- Witness for **C6** at a concrete whitespace-and-newlines input. -/
theorem whitespace_only_empty_witness :
    tokenize " \t\n " = .results [] :=
  whitespace_only_empty " \t\n " (by decide)

/-- Witness for **C4** at `op = '+'`, `other = 'x'`. -/
theorem op_equal_compound_and_separation_witness :
    tokenize "+=" =
      .results [.ok { ttype := .AddEqual, line := 1, col := 2 }] ∧
    tokenize "+x" =
      .results [.ok { ttype := .Add, line := 1, col := 1 },
        .ok { ttype := .Identifier "x", line := 1, col := 2 }] := by
  have h := op_equal_compound_and_separation '+' (by decide)
  exact ⟨h.1, h.2 'x' { ttype := .Identifier "x", line := 1, col := 1 }
    (by decide) (by decide) rfl⟩

/-- **C5**: for every input string, the sequence returned by `tokenize`
never contains a token of kind `Eof`: the loop stops as soon as
`next_token` produces the `Eof` marker and does not push it. -/
theorem tokenize_no_eof_token :
    ∀ (s : String) (rs : List (Except LexerError Token)),
      tokenize s = .results rs →
      ∀ r ∈ rs, ∀ t : Token, r = Except.ok t → t.ttype ≠ .Eof := by
  intro s rs hs r hr t hrt
  have h := (tokenizeLoop_spec (Lexer.new s).fuelBound (Lexer.new s)
    (by simp only [Lexer.new, Lexer.fuelBound]; omega)).2 rs hs
  exact (h.2 r hr t hrt).1

/-- Witness for **C5** at the input `"+"`. -/
theorem tokenize_no_eof_token_witness :
    tokenize "+" =
      .results [Except.ok { ttype := TokenType.Add, line := 1, col := 1 }] ∧
    ({ ttype := TokenType.Add, line := 1, col := 1 } : Token).ttype ≠ .Eof := by
  refine ⟨rfl, ?_⟩
  exact tokenize_no_eof_token "+"
    [Except.ok { ttype := TokenType.Add, line := 1, col := 1 }] rfl
    (Except.ok { ttype := TokenType.Add, line := 1, col := 1 })
    (List.mem_singleton.mpr rfl)
    { ttype := TokenType.Add, line := 1, col := 1 } rfl

/-- **C9**: for every input string, no element of the sequence returned by
`tokenize` is a token of kind `Minus` or `MinusEqual`: these two declared
`TokenType` variants are unreachable from every scan path. -/
theorem tokenize_no_minus_tokens :
    ∀ (s : String) (rs : List (Except LexerError Token)),
      tokenize s = .results rs →
      ∀ r ∈ rs, ∀ t : Token, r = Except.ok t →
        t.ttype ≠ .Minus ∧ t.ttype ≠ .MinusEqual := by
  intro s rs hs r hr t hrt
  have h := (tokenizeLoop_spec (Lexer.new s).fuelBound (Lexer.new s)
    (by simp only [Lexer.new, Lexer.fuelBound]; omega)).2 rs hs
  exact ⟨(h.2 r hr t hrt).2.1, (h.2 r hr t hrt).2.2⟩

/-- Witness for **C9** at the input `"-"` (which yields `Less`). -/
theorem tokenize_no_minus_tokens_witness :
    tokenize "-" =
      .results [Except.ok { ttype := TokenType.Less, line := 1, col := 1 }] ∧
    ({ ttype := TokenType.Less, line := 1, col := 1 } : Token).ttype ≠
      .Minus := by
  refine ⟨rfl, ?_⟩
  exact (tokenize_no_minus_tokens "-"
    [Except.ok { ttype := TokenType.Less, line := 1, col := 1 }] rfl
    (Except.ok { ttype := TokenType.Less, line := 1, col := 1 })
    (List.mem_singleton.mpr rfl)
    { ttype := TokenType.Less, line := 1, col := 1 } rfl).1

/-- **C10**: tokenization terminates on every finite input: each
`next_token` call (at the fuel bound every call site supplies) either
yields the `Eof` marker or strictly advances the cursor, the fuelled
`tokenize` never exhausts its fuel, and the loop produces at most one
result per input character. -/
theorem tokenize_terminates_and_progresses :
    (∀ l : Lexer,
      (∃ t, (Lexer.nextToken l.fuelBound l).1 = .ok t ∧ t.ttype = .Eof) ∨
      l.source.pos < ((Lexer.nextToken l.fuelBound l).2).source.pos) ∧
    (∀ s : String, tokenize s ≠ .fuelOut) ∧
    (∀ (s : String) (rs : List (Except LexerError Token)),
      tokenize s = .results rs → rs.length ≤ s.data.length) := by
  refine ⟨?_, ?_, ?_⟩
  · intro l
    have h := nextToken_spec l.fuelBound l
      (by simp only [Lexer.fuelBound]; omega)
    rcases h.2.2.2.1 with he | hp
    · exact Or.inl he
    · exact Or.inr hp.2
  · intro s
    exact (tokenizeLoop_spec (Lexer.new s).fuelBound (Lexer.new s)
      (by simp only [Lexer.new, Lexer.fuelBound]; omega)).1
  · intro s rs hs
    have h := (tokenizeLoop_spec (Lexer.new s).fuelBound (Lexer.new s)
      (by simp only [Lexer.new, Lexer.fuelBound]; omega)).2 rs hs
    exact h.1.trans (by simp [Lexer.new])

/-- Witness for **C10** at the input `"a"`. -/
theorem tokenize_terminates_and_progresses_witness :
    tokenize "a" ≠ .fuelOut ∧
    ([Except.ok ({ ttype := .Identifier "a", line := 1, col := 1 } : Token)] :
      List (Except LexerError Token)).length ≤
      ("a" : String).data.length := by
  exact ⟨tokenize_terminates_and_progresses.2.1 "a",
    tokenize_terminates_and_progresses.2.2 "a"
      [Except.ok { ttype := .Identifier "a", line := 1, col := 1 }] rfl⟩

/-- **C4** (counterexample to the unrestricted reading): for `op = '+'` and
`<other> = ' '` (a space, which is not the continuation character `'='`),
tokenizing `"+ "` yields only the `Add` token — there is no separate token
for the space, so the claim needs `<other>` to lex to a token on its own. -/
theorem op_other_whitespace_counterexample :
    tokenize "+ " =
      .results [.ok { ttype := .Add, line := 1, col := 1 }] ∧
    ∀ rs, tokenize "+ " = .results rs → rs.length ≠ 2 := by
  refine ⟨rfl, ?_⟩
  intro rs h
  rw [show tokenize "+ " =
    .results [Except.ok { ttype := TokenType.Add, line := 1, col := 1 }]
    from rfl] at h
  injection h with h
  subst h
  simp
